import Mathlib

/-!
Verification of the `oq` terminal OpenAPI viewer.

The Go sources are shallowly embedded: Go slices become `List`, Go maps become
association lists `List (key × value)` (iterated in list order; reordering the
list models a different hash-iteration order), Go `int` becomes `Int`,
pointers that may be nil become `Option`, and `time.Time` becomes an `Int`
nanosecond count.  `sort.Slice` guarantees a permutation of the input that is
ordered by the supplied comparator; we realise it with `List.insertionSort`
on the non-strict relation `fun a b => less b a = false`.
-/

namespace Oq

/-- Number of newline characters in a string; `strings.Count(s, "\n")` for the
single-character separator used throughout the source. -/
def newlineCount (s : String) : Int :=
  ((s.data.filter (fun c => c = '\n')).length : Int)

/-- Association-list lookup, modelling Go map indexing `m[k]`. -/
def lookup {β : Type} (l : List (String × β)) (k : String) : Option β :=
  match l.find? (fun p => p.1 = k) with
  | some p => some p.2
  | none => none

/-- Go `fmt.Sprintf("%v", xs)` for a `[]string`: space-separated inside brackets. -/
def govList (l : List String) : String :=
  "[" ++ String.intercalate " " l ++ "]"

/-- Go `strings.ToUpper` restricted to the ASCII method names that reach it. -/
def goToUpper (s : String) : String :=
  s.map Char.toUpper

/-- Go `strings.ToLower` restricted to the ASCII strings that reach it. -/
def goToLower (s : String) : String :=
  s.map Char.toLower

/-- Lexicographic comparison of character lists. -/
def strLtb : List Char → List Char → Bool
  | [], [] => false
  | [], _ :: _ => true
  | _ :: _, [] => false
  | c :: cs, d :: ds => if c < d then true else if d < c then false else strLtb cs ds

/-- Go `a < b` on strings: byte-wise lexicographic comparison of the UTF-8
encodings, which (UTF-8 being order-preserving) is the lexicographic order
on the character sequences. -/
def goStrLt (a b : String) : Bool := strLtb a.data b.data

/-- Go `sort.Slice(l, less)`: a permutation of `l` ordered by `less`.
Realised by insertion sort over the non-strict relation. -/
def goSortBy {α : Type} (less : α → α → Bool) (l : List α) : List α :=
  List.insertionSort (fun a b => less b a = false) l

/-- Go `sort.Strings`: ascending lexicographic. -/
def goSortStrings (l : List String) : List String :=
  goSortBy goStrLt l

/-- Go `strconv.Atoi`: optional sign, decimal digits, error (`none`) on empty
strings, stray characters, or 64-bit overflow. -/
def goAtoi (s : String) : Option Int :=
  match s.data with
  | [] => none
  | c :: rest =>
    let neg := c = '-'
    let ds := if c = '-' ∨ c = '+' then rest else c :: rest
    if ds = [] then none
    else if ds.all Char.isDigit then
      let v : Int := (ds.foldl (fun a d => 10 * a + (d.toNat - 48)) 0 : Nat)
      let i : Int := if neg then -v else v
      if -(2 ^ 63) ≤ i ∧ i ≤ 2 ^ 63 - 1 then some i else none
    else none

/-- The comparator closure passed to `sort.Slice` in `sortResponseCodes`. -/
def respLess (a b : String) : Bool :=
  match goAtoi a, goAtoi b with
  | some i, some j => decide (i < j)
  | some _, none => true
  | none, some _ => false
  | none, none => goStrLt a b

/-- `sortResponseCodes`: numeric codes numerically ascending first, then
non-numeric codes alphabetically. -/
def sortResponseCodes (codes : List String) : List String :=
  goSortBy respLess codes

/-! ### The parsed-document data model (the kin-openapi fields the code reads) -/

/-- `openapi3.Schema`, restricted to the fields the formatters read.
`typ` is the `Type *Types` field (a nil-able list of type names). -/
inductive Schema where
  | mk (typ : Option (List String)) (format : String) (required : List String)
      (properties : List (String × Option Schema)) (items : Option (Option Schema))
      (description : String)

def Schema.typ : Schema → Option (List String) | .mk t _ _ _ _ _ => t
def Schema.format : Schema → String | .mk _ f _ _ _ _ => f
def Schema.required : Schema → List String | .mk _ _ r _ _ _ => r
def Schema.properties : Schema → List (String × Option Schema) | .mk _ _ _ p _ _ => p
def Schema.items : Schema → Option (Option Schema) | .mk _ _ _ _ i _ => i
def Schema.description : Schema → String | .mk _ _ _ _ _ d => d

structure Parameter where
  name : String
  in_ : String
  description : String
  required : Bool
  schema : Option (Option Schema)
  /-- the `%v` rendering of the untyped `Example` field, when present -/
  example_ : Option String

structure MediaType where
  schema : Option (Option Schema)

structure RequestBody where
  description : String
  required : Bool
  content : List (String × MediaType)

structure Header where
  description : String
  required : Bool
  schema : Option (Option Schema)

structure Response where
  description : Option String
  content : List (String × MediaType)
  headers : List (String × Option Header)

structure SecurityScheme where
  typ : String
  scheme : String
  bearerFormat : String
  in_ : String
  name : String
  description : String

structure Operation where
  summary : String
  description : String
  operationID : String
  parameters : List (Option Parameter)
  requestBody : Option (Option RequestBody)
  responses : Option (List (String × Option Response))

structure PathItem where
  get : Option Operation
  post : Option Operation
  put : Option Operation
  delete : Option Operation
  patch : Option Operation
  head : Option Operation
  options : Option Operation
  trace : Option Operation

structure Components where
  schemas : List (String × Option Schema)
  requestBodies : List (String × Option RequestBody)
  responses : List (String × Option Response)
  parameters : List (String × Option Parameter)
  headers : List (String × Option Header)
  securitySchemes : List (String × Option SecurityScheme)

/-- A dynamically typed Go value (`interface\x7b\x7d`), as found in `Extensions`. -/
inductive GoVal where
  | str (s : String)
  | vmap (entries : List (String × GoVal))
  | other

/-- `openapi3.T`, restricted to the fields the code reads. -/
structure OpenAPIDoc where
  openapi : String
  paths : List (String × PathItem)
  components : Option Components
  extensions : List (String × GoVal)

/-! ### Extracted entities -/

structure Endpoint where
  path : String
  method : String
  op : Operation
  folded : Bool

structure Component where
  name : String
  compType : String
  description : String
  details : String
  folded : Bool

structure Webhook where
  name : String
  method : String
  op : Operation
  folded : Bool

/-! ### Formatting (src/oas.go) -/

/-- `formatEndpointDetails`. -/
def formatEndpointDetails (ep : Endpoint) : String :=
  let s := ""
  let s := if ep.op.summary ≠ "" then s ++ "Summary: " ++ ep.op.summary ++ "\n" else s
  let s := if ep.op.description ≠ "" then
      s ++ "Description: " ++ ep.op.description ++ "\n"
    else s
  let s := if ep.op.parameters.length > 0 then
      (s ++ "Parameters:\n") ++ String.join (ep.op.parameters.map (fun p? =>
        match p? with
        | some p => "  - " ++ p.name ++ " (" ++ p.in_ ++ "): " ++ p.description ++ "\n"
        | none => ""))
    else s
  let s := match ep.op.requestBody with
    | some (some rb) =>
      let mediaTypes := goSortStrings (rb.content.map Prod.fst)
      (s ++ "Request Body:\n") ++ String.join (mediaTypes.map (fun mt => "  - " ++ mt ++ "\n"))
    | _ => s
  let s := match ep.op.responses with
    | some resps =>
      let codes := sortResponseCodes (resps.map Prod.fst)
      (s ++ "Responses:\n") ++ String.join (codes.map (fun code =>
        match lookup resps code with
        | some (some r) =>
          match r.description with
          | some d => "  - " ++ code ++ ": " ++ d ++ "\n"
          | none => ""
        | _ => ""))
    | none => s
  s

/-- The `Type`/`Types` line shared by the schema-shaped formatters: one name
prints bare, several print as a Go `%v` list, an empty or nil list prints
nothing. -/
def typesLine (single multi : String) (typ : Option (List String)) : String :=
  match typ with
  | some [t] => single ++ t ++ "\n"
  | some [] => ""
  | some ts => multi ++ govList ts ++ "\n"
  | none => ""

/-- The `(type: t)` / `(types: [..])` suffix used for media-type schemas. -/
def mediaTypeSuffix (mt? : Option MediaType) : String :=
  match mt? with
  | some mtObj =>
    match mtObj.schema with
    | some (some sc) =>
      match sc.typ with
      | some [t] => " (type: " ++ t ++ ")"
      | some [] => ""
      | some ts => " (types: " ++ govList ts ++ ")"
      | none => ""
    | _ => ""
  | none => ""

/-- The sorted `Content Types:` block shared by request-body and response
formatters. -/
def contentTypesBlock (content : List (String × MediaType)) : String :=
  let mediaTypes := goSortStrings (content.map Prod.fst)
  "Content Types:\n" ++ String.join (mediaTypes.map (fun mt =>
    "  - " ++ mt ++ mediaTypeSuffix (lookup content mt) ++ "\n"))

/-- `formatSchemaDetails`. -/
def formatSchemaDetails (schema? : Option Schema) : String :=
  match schema? with
  | none => "No schema details available"
  | some schema =>
    let s := typesLine "Type: " "Types: " schema.typ
    let s := if schema.format ≠ "" then s ++ "Format: " ++ schema.format ++ "\n" else s
    let s := if schema.required.length > 0 then
        s ++ "Required: " ++ govList schema.required ++ "\n"
      else s
    let s := if schema.properties.length > 0 then
        let propNames := goSortStrings (schema.properties.map Prod.fst)
        (s ++ "Properties:\n") ++ String.join (propNames.map (fun propName =>
          let propType :=
            match lookup schema.properties propName with
            | some (some p) =>
              match p.typ with
              | some [t] => t
              | some [] => "unknown"
              | some ts => govList ts
              | none => "unknown"
            | _ => "unknown"
          "  - " ++ propName ++ ": " ++ propType ++ "\n"))
      else s
    let s := match schema.items with
      | some (some it) => s ++ typesLine "Items Type: " "Items Types: " it.typ
      | _ => s
    s

/-- `formatRequestBodyDetails`. -/
def formatRequestBodyDetails (reqBody? : Option RequestBody) : String :=
  match reqBody? with
  | none => "No request body details available"
  | some reqBody =>
    let s := if reqBody.required then "Required: true\n" else ""
    let s := if reqBody.content.length > 0 then s ++ contentTypesBlock reqBody.content else s
    s

/-- `formatResponseDetails`. -/
def formatResponseDetails (response? : Option Response) : String :=
  match response? with
  | none => "No response details available"
  | some response =>
    let s := if response.content.length > 0 then contentTypesBlock response.content else ""
    let s := if response.headers.length > 0 then
        let headerNames := goSortStrings (response.headers.map Prod.fst)
        (s ++ "Headers:\n") ++ String.join (headerNames.map (fun hn => "  - " ++ hn ++ "\n"))
      else s
    s

/-- `formatParameterDetails`. -/
def formatParameterDetails (param? : Option Parameter) : String :=
  match param? with
  | none => "No parameter details available"
  | some param =>
    let s := "In: " ++ param.in_ ++ "\n"
    let s := if param.required then s ++ "Required: true\n" else s
    let s := match param.schema with
      | some (some sc) =>
        let s := s ++ typesLine "Type: " "Types: " sc.typ
        if sc.typ.getD [] ≠ [] ∧ sc.format ≠ "" then s ++ "Format: " ++ sc.format ++ "\n" else s
      | _ => s
    let s := match param.example_ with
      | some e => s ++ "Example: " ++ e ++ "\n"
      | none => s
    s

/-- `formatHeaderDetails`. -/
def formatHeaderDetails (header? : Option Header) : String :=
  match header? with
  | none => "No header details available"
  | some header =>
    let s := if header.required then "Required: true\n" else ""
    let s := match header.schema with
      | some (some sc) =>
        let s := s ++ typesLine "Type: " "Types: " sc.typ
        if sc.typ.getD [] ≠ [] ∧ sc.format ≠ "" then s ++ "Format: " ++ sc.format ++ "\n" else s
      | _ => s
    s

/-- `formatSecuritySchemeDetails`. -/
def formatSecuritySchemeDetails (_name : String) (secScheme? : Option SecurityScheme) : String :=
  match secScheme? with
  | none => "No security scheme details available"
  | some secScheme =>
    let s := "Type: " ++ secScheme.typ ++ "\n"
    let s := if secScheme.scheme ≠ "" then s ++ "Scheme: " ++ secScheme.scheme ++ "\n" else s
    let s := if secScheme.bearerFormat ≠ "" then
        s ++ "Bearer Format: " ++ secScheme.bearerFormat ++ "\n"
      else s
    let s := if secScheme.in_ ≠ "" then s ++ "In: " ++ secScheme.in_ ++ "\n" else s
    let s := if secScheme.name ≠ "" then s ++ "Name: " ++ secScheme.name ++ "\n" else s
    s

/-- `formatWebhookDetails`. -/
def formatWebhookDetails (hook : Webhook) : String :=
  let s := if hook.op.summary ≠ "" then "Summary: " ++ hook.op.summary ++ "\n" else ""
  let s := if hook.op.description ≠ "" then
      s ++ "Description: " ++ hook.op.description ++ "\n"
    else s
  let s := if hook.op.operationID ≠ "" then
      s ++ "Operation ID: " ++ hook.op.operationID ++ "\n"
    else s
  s

/-! ### Extraction (src/oas.go) -/

/-- The comparator for endpoints: first by path, then by method. -/
def endpointLess (a b : Endpoint) : Bool :=
  if a.path ≠ b.path then goStrLt a.path b.path else goStrLt a.method b.method

/-- The per-path entries appended by `extractEndpoints`, in source order. -/
def pathEndpoints (path : String) (pathItem : PathItem) : List Endpoint :=
  (match pathItem.get with
   | some op => [{ path := path, method := "GET", op := op, folded := true }] | none => []) ++
  (match pathItem.post with
   | some op => [{ path := path, method := "POST", op := op, folded := true }] | none => []) ++
  (match pathItem.put with
   | some op => [{ path := path, method := "PUT", op := op, folded := true }] | none => []) ++
  (match pathItem.delete with
   | some op => [{ path := path, method := "DELETE", op := op, folded := true }] | none => []) ++
  (match pathItem.patch with
   | some op => [{ path := path, method := "PATCH", op := op, folded := true }] | none => []) ++
  (match pathItem.head with
   | some op => [{ path := path, method := "HEAD", op := op, folded := true }] | none => []) ++
  (match pathItem.options with
   | some op => [{ path := path, method := "OPTIONS", op := op, folded := true }] | none => []) ++
  (match pathItem.trace with
   | some op => [{ path := path, method := "TRACE", op := op, folded := true }] | none => [])

/-- The endpoint list accumulated by `extractEndpoints` before sorting,
following the map-iteration order of the representation. -/
def extractEndpointsRaw (doc : OpenAPIDoc) : List Endpoint :=
  doc.paths.flatMap (fun p => pathEndpoints p.1 p.2)

/-- `extractEndpoints`. -/
def extractEndpoints (doc : OpenAPIDoc) : List Endpoint :=
  goSortBy endpointLess (extractEndpointsRaw doc)

/-- The comparator for components: first by type, then by name. -/
def componentLess (a b : Component) : Bool :=
  if a.compType ≠ b.compType then goStrLt a.compType b.compType
  else goStrLt a.name b.name

/-- The component list accumulated by `extractComponents` before sorting:
schemas, request bodies, responses, parameters, headers, security schemes,
each block in the map-iteration order of the representation. -/
def extractComponentsRaw (doc : OpenAPIDoc) : List Component :=
  match doc.components with
    | none => []
    | some c =>
      (c.schemas.map (fun p =>
        { name := p.1, compType := "Schema",
          description := match p.2 with | some v => v.description | none => "",
          details := formatSchemaDetails p.2, folded := true })) ++
      (c.requestBodies.map (fun p =>
        { name := p.1, compType := "RequestBody",
          description := match p.2 with | some v => v.description | none => "",
          details := formatRequestBodyDetails p.2, folded := true })) ++
      (c.responses.map (fun p =>
        { name := p.1, compType := "Response",
          description := match p.2 with | some v => v.description.getD "" | none => "",
          details := formatResponseDetails p.2, folded := true })) ++
      (c.parameters.map (fun p =>
        { name := p.1, compType := "Parameter",
          description := match p.2 with | some v => v.description | none => "",
          details := formatParameterDetails p.2, folded := true })) ++
      (c.headers.map (fun p =>
        { name := p.1, compType := "Header",
          description := match p.2 with | some v => v.description | none => "",
          details := formatHeaderDetails p.2, folded := true })) ++
      (c.securitySchemes.map (fun p =>
        { name := p.1, compType := "SecurityScheme",
          description := match p.2 with | some v => v.description | none => "",
          details := formatSecuritySchemeDetails p.1 p.2, folded := true }))

/-- `extractComponents`. -/
def extractComponents (doc : OpenAPIDoc) : List Component :=
  goSortBy componentLess (extractComponentsRaw doc)

/-- `isOpenAPI31OrLater`. -/
def isOpenAPI31OrLater (doc : OpenAPIDoc) : Bool :=
  if doc.openapi = "" then false
  else
    let parts := doc.openapi.splitOn "."
    if parts.length < 2 then false
    else
      let major := parts.getD 0 ""
      let minor := parts.getD 1 ""
      (major = "3" ∧ (minor = "1" ∨ goStrLt "1" minor = true)) ∨ goStrLt "3" major = true

/-- `isHTTPMethod`. -/
def isHTTPMethod (method : String) : Bool :=
  goToLower method ∈
    ["get", "post", "put", "delete", "patch", "head", "options", "trace"]

/-- The comparator for webhooks: first by name, then by method. -/
def webhookLess (a b : Webhook) : Bool :=
  if a.name ≠ b.name then goStrLt a.name b.name else goStrLt a.method b.method

/-- Go `methodMap["k"].(string)` with the zero value on a failed assertion. -/
def getStrField (m : List (String × GoVal)) (k : String) : String :=
  match lookup m k with
  | some (.str s) => s
  | _ => ""

/-- The webhooks generated from one entry of the webhooks map: one per HTTP
method found in the hook's method map, in map-iteration order. -/
def hookEndpoints (name : String) (v : GoVal) : List Webhook :=
  match v with
  | .vmap hookMap =>
    hookMap.flatMap (fun q =>
      if isHTTPMethod q.1 then
        match q.2 with
        | .vmap methodMap =>
          [{ name := name, method := goToUpper q.1,
             op := { summary := getStrField methodMap "summary",
                     description := getStrField methodMap "description",
                     operationID := getStrField methodMap "operationId",
                     parameters := [], requestBody := none, responses := none },
             folded := true }]
        | _ => []
      else [])
  | _ => []

/-- The webhook list accumulated by `parseWebhooksFromData` before sorting,
following the (nested) map-iteration order of the representation. -/
def webhooksRaw (webhookData : List (String × GoVal)) : List Webhook :=
  webhookData.flatMap (fun p => hookEndpoints p.1 p.2)

/-- A webhook entry whose method map has unique keys (as Go map keys are)
with no two distinct keys collapsing to the same method after upper-casing. -/
def hookClean : GoVal → Prop
  | .vmap hm => (hm.map Prod.fst).Nodup ∧
      ∀ m₁ ∈ hm.map Prod.fst, ∀ m₂ ∈ hm.map Prod.fst, goToUpper m₁ = goToUpper m₂ → m₁ = m₂
  | _ => True

/-- Two representations of the same webhook entry, the method map possibly
iterated in another order. -/
def hookRel : GoVal → GoVal → Prop
  | .vmap h', .vmap h => h'.Perm h
  | x, y => x = y

/-- `parseWebhooksFromData`. -/
def parseWebhooksFromData (webhookData : List (String × GoVal)) : List Webhook :=
  goSortBy webhookLess (webhooksRaw webhookData)

/-- `extractWebhooks`. -/
def extractWebhooks (doc : OpenAPIDoc) : List Webhook :=
  if ¬isOpenAPI31OrLater doc then []
  else
    match lookup doc.extensions "webhooks" with
    | some (.vmap webhookData) => parseWebhooksFromData webhookData
    | _ => []

/-! ### The viewport/state engine (src/unnamed/part_007) -/

inductive ViewMode where
  | endpoints
  | components
  | webhooks
deriving DecidableEq

/-- `keySequenceThreshold = 500 * time.Millisecond`, in nanoseconds. -/
def keySequenceThreshold : Int := 500 * 1000000

def headerApproxLines : Int := 2
def footerApproxLines : Int := 4
def layoutBuffer : Int := 2

/-- `calculateContentHeight`. -/
def calculateContentHeight (totalHeight : Int) : Int :=
  max 1 (totalHeight - headerApproxLines - footerApproxLines - layoutBuffer)

structure Model where
  doc : OpenAPIDoc
  endpoints : List Endpoint
  components : List Component
  webhooks : List Webhook
  cursor : Int
  mode : ViewMode
  width : Int
  height : Int
  showHelp : Bool
  lastKey : String
  lastKeyAt : Int
  scrollOffset : Int

/-- The rendered height of an unfolded/folded endpoint row. -/
def endpointHeight (ep : Endpoint) : Int :=
  if ep.folded then 1 else 1 + newlineCount (formatEndpointDetails ep) + 1

/-- The rendered height of an unfolded/folded component row. -/
def componentHeight (comp : Component) : Int :=
  if comp.folded then 1 else 1 + newlineCount comp.details + 1

/-- The rendered height of an unfolded/folded webhook row. -/
def webhookHeight (hook : Webhook) : Int :=
  if hook.folded then 1 else 1 + newlineCount (formatWebhookDetails hook) + 1

/-- `getItemHeight`.  A nonnegative out-of-range index returns 1 as in the
source; Go would panic on a negative index (none of our uses pass one). -/
def getItemHeight (m : Model) (index : Int) : Int :=
  match m.mode with
  | .endpoints =>
    match m.endpoints[index.toNat]? with
    | none => 1
    | some ep => endpointHeight ep
  | .components =>
    match m.components[index.toNat]? with
    | none => 1
    | some comp => componentHeight comp
  | .webhooks =>
    match m.webhooks[index.toNat]? with
    | none => 1
    | some hook => webhookHeight hook

/-- `len(items)` in `ensureCursorVisible`: the active collection's length. -/
def itemsLen (m : Model) : Nat :=
  match m.mode with
  | .endpoints => m.endpoints.length
  | .components => m.components.length
  | .webhooks => m.webhooks.length

/-- The loop `for i := start; i <= m.cursor && i < len(items); i++`
accumulating `getItemHeight(i)`. -/
def codeLinesUsed (m : Model) (start : Int) : Int :=
  (((List.range (itemsLen m)).filter
      (fun (i : Nat) => decide (start ≤ (i : Int)) && decide ((i : Int) ≤ m.cursor))).map
    (fun (i : Nat) => getItemHeight m (i : Int))).sum

/-- The trial line count for a candidate scroll offset: indicator row first,
then the items from the candidate to the cursor. -/
def testLinesUsed (m : Model) (newScrollOffset : Int) : Int :=
  (if newScrollOffset > 0 then 1 else 0) + codeLinesUsed m newScrollOffset

/-- The candidate offsets `scrollOffset+1 .. cursor` tried by the forward scan,
in scan order. -/
def scanCandidates (m : Model) : List Int :=
  (List.range (m.cursor - m.scrollOffset).toNat).map
    (fun (k : Nat) => m.scrollOffset + 1 + (k : Int))

/-- `ensureCursorVisible`. -/
def ensureCursorVisible (m : Model) : Model :=
  let contentHeight := calculateContentHeight m.height
  if m.cursor = 0 then { m with scrollOffset := 0 }
  else if itemsLen m = 0 then m
  else if m.cursor < m.scrollOffset then { m with scrollOffset := m.cursor }
  else
    let linesUsed := codeLinesUsed m m.scrollOffset + (if m.scrollOffset > 0 then 1 else 0)
    let m' :=
      if linesUsed > contentHeight then
        match (scanCandidates m).find?
            (fun off => decide (testLinesUsed m off ≤ contentHeight)) with
        | some off => { m with scrollOffset := off }
        | none => m
      else m
    if m'.scrollOffset < 0 then { m' with scrollOffset := 0 } else m'

/-- `NewModel`. -/
def NewModel (doc : OpenAPIDoc) : Model :=
  { doc := doc
    endpoints := extractEndpoints doc
    components := extractComponents doc
    webhooks := extractWebhooks doc
    cursor := 0
    mode := .endpoints
    width := 80
    height := 24
    showHelp := false
    lastKey := ""
    lastKeyAt := 0
    scrollOffset := 0 }

def hasWebhooks (m : Model) : Bool :=
  m.webhooks.length > 0

/-- A bubbletea message.  `time.Now()` at the `g` branch is passed explicitly
with the key press. -/
inductive Msg where
  | windowSize (w h : Int)
  | key (k : String) (now : Int)

/-- Flip `folded` on the entry at `i` (in range by the caller's guard). -/
def toggleFoldAt {α : Type} (flip : α → α) (l : List α) (i : Nat) : List α :=
  match l[i]? with
  | some e => l.set i (flip e)
  | none => l

/-- The `tab`/`L` branch. -/
def cycleForward (m : Model) : Model :=
  let m :=
    match m.mode with
    | .endpoints => if hasWebhooks m then { m with mode := .webhooks }
                    else { m with mode := .components }
    | .webhooks => { m with mode := .components }
    | .components => { m with mode := .endpoints }
  { m with cursor := 0, scrollOffset := 0 }

/-- The `shift+tab`/`H` branch. -/
def cycleBackward (m : Model) : Model :=
  let m :=
    match m.mode with
    | .endpoints => { m with mode := .components }
    | .webhooks => { m with mode := .endpoints }
    | .components => if hasWebhooks m then { m with mode := .webhooks }
                     else { m with mode := .endpoints }
  { m with cursor := 0, scrollOffset := 0 }

/-- `len(active) - 1` as computed in the `down`/`G` branches. -/
def maxItems (m : Model) : Int :=
  match m.mode with
  | .endpoints => (m.endpoints.length : Int) - 1
  | .components => (m.components.length : Int) - 1
  | .webhooks => (m.webhooks.length : Int) - 1

/-- The `enter`/`space` branch. -/
def toggleFold (m : Model) : Model :=
  if m.mode = .endpoints ∧ m.cursor < (m.endpoints.length : Int) then
    { m with endpoints :=
        toggleFoldAt (fun e => { e with folded := !e.folded }) m.endpoints m.cursor.toNat }
  else if m.mode = .components ∧ m.cursor < (m.components.length : Int) then
    { m with components :=
        toggleFoldAt (fun e => { e with folded := !e.folded }) m.components m.cursor.toNat }
  else if m.mode = .webhooks ∧ m.cursor < (m.webhooks.length : Int) then
    { m with webhooks :=
        toggleFoldAt (fun e => { e with folded := !e.folded }) m.webhooks m.cursor.toNat }
  else m

/-- `Update`.  The `Bool` is `true` when the command is `tea.Quit`. -/
def update (m : Model) (msg : Msg) : Model × Bool :=
  match msg with
  | .windowSize w h => ({ m with width := w, height := h }, false)
  | .key k now =>
    if k = "q" ∨ k = "ctrl+c" then
      if m.showHelp then ({ m with showHelp := false }, false) else (m, true)
    else if k = "?" then ({ m with showHelp := !m.showHelp }, false)
    else if k = "esc" then
      (if m.showHelp then { m with showHelp := false } else m, false)
    else if k = "tab" ∨ k = "L" then
      (if !m.showHelp then cycleForward m else m, false)
    else if k = "shift+tab" ∨ k = "H" then
      (if !m.showHelp then cycleBackward m else m, false)
    else if k = "up" ∨ k = "k" then
      (if !m.showHelp ∧ m.cursor > 0 then
        ensureCursorVisible { m with cursor := m.cursor - 1 }
       else m, false)
    else if k = "down" ∨ k = "j" then
      (if !m.showHelp ∧ m.cursor < maxItems m then
        ensureCursorVisible { m with cursor := m.cursor + 1 }
       else m, false)
    else if k = "G" then
      (if !m.showHelp ∧ maxItems m ≥ 0 then
        ensureCursorVisible { m with cursor := maxItems m }
       else m, false)
    else if k = "g" then
      if m.lastKey = "g" ∧ now - m.lastKeyAt < keySequenceThreshold then
        let m1 := if !m.showHelp then ensureCursorVisible { m with cursor := 0 } else m
        ({ m1 with lastKey := "", lastKeyAt := 0 }, false)
      else ({ m with lastKey := "g", lastKeyAt := now }, false)
    else if k = "enter" ∨ k = " " then
      (if !m.showHelp then toggleFold m else m, false)
    else (m, false)

/-- Run a list of messages through `update`, dropping the quit flags. -/
def applyMsgs (m : Model) (msgs : List Msg) : Model :=
  msgs.foldl (fun st msg => (update st msg).1) m

/-! ### Sort keys of the four comparators -/

/-- Sort key of `endpointLess`: (path, method), lexicographically. -/
def endpointKey (e : Endpoint) : Lex (String × String) := toLex (e.path, e.method)

/-- Sort key of `componentLess`: (kind, name), lexicographically. -/
def componentKey (c : Component) : Lex (String × String) := toLex (c.compType, c.name)

/-- Sort key of `webhookLess`: (name, method), lexicographically. -/
def webhookKey (w : Webhook) : Lex (String × String) := toLex (w.name, w.method)

/-- Sort key of the `sortResponseCodes` comparator: numeric codes (by value)
strictly below all non-numeric codes (by string). -/
def respKey (s : String) : Lex (Int ⊕ String) :=
  match goAtoi s with
  | some i => toLex (Sum.inl i)
  | none => toLex (Sum.inr s)

/-! ### Spec-side definitions for the `EnsureVisible` algorithm (§4.2)

`ensureVisibleSpec` is written from the specification's wording, to be
compared with `ensureCursorVisible` (which is translated from the source):
per-item heights by the folded/unfolded rule, `linesUsed` as the sum over
the inclusive index range plus the above-indicator row, a linear first-fit
scan over offsets strictly greater than the current one (up to the cursor,
the largest offset from which the range `scrollOffset'..cursor` is
well-formed), and a final clamp to nonnegative offsets. -/

/-- The per-item heights of the active collection, by the spec's rule: a
folded item is 1 row, an unfolded one is `1 + newlines-in-detail + 1`. -/
def activeHeights (m : Model) : List Int :=
  match m.mode with
  | .endpoints => m.endpoints.map endpointHeight
  | .components => m.components.map componentHeight
  | .webhooks => m.webhooks.map webhookHeight

/-- Sum of per-item heights for the items at indices `lo..hi` inclusive. -/
def sumHeightsIcc (m : Model) (lo hi : Int) : Int :=
  ((List.range' lo.toNat (hi - lo + 1).toNat).filterMap
    (fun i => (activeHeights m)[i]?)).sum

/-- The spec's `linesUsed` for a starting offset: heights of
`start..cursor` plus one row for the items-above indicator. -/
def specLinesUsed (m : Model) (start : Int) : Int :=
  sumHeightsIcc m start m.cursor + (if start > 0 then 1 else 0)

/-- The `EnsureVisible` algorithm exactly as the specification states it. -/
def ensureVisibleSpec (m : Model) : Model :=
  let contentHeight := max 1 (m.height - headerApproxLines - footerApproxLines - layoutBuffer)
  let m' :=
    if m.cursor = 0 then { m with scrollOffset := 0 }
    else if m.cursor < m.scrollOffset then { m with scrollOffset := m.cursor }
    else if specLinesUsed m m.scrollOffset > contentHeight then
      match (scanCandidates m).find?
          (fun off => decide (specLinesUsed m off ≤ contentHeight)) with
      | some off => { m with scrollOffset := off }
      | none => m
    else m
  if m'.scrollOffset < 0 then { m' with scrollOffset := 0 } else m'

/-! ### Navigation-command vocabulary for the cursor/scroll invariant -/

/-- The keys of the MoveUp/MoveDown/JumpTop/JumpBottom commands. -/
def navKeys : List String := ["up", "k", "down", "j", "g", "G"]

/-- A message that is one of the four navigation commands. -/
def isNavMsg : Msg → Bool
  | .key k _ => decide (k ∈ navKeys)
  | .windowSize _ _ => false

/-- The invariant maintained by navigation commands from `NewModel`. -/
def NavInv (m : Model) : Prop :=
  m.showHelp = false ∧ m.mode = ViewMode.endpoints ∧
  0 ≤ m.cursor ∧ m.cursor < max 1 ((itemsLen m : Int)) ∧
  0 ≤ m.scrollOffset ∧ m.scrollOffset ≤ m.cursor

/-! ### Concrete documents and states used by witnesses and counterexamples -/

/-- An operation with every optional piece absent; its detail text is empty. -/
def emptyOp : Operation :=
  { summary := "", description := "", operationID := "", parameters := [],
    requestBody := none, responses := none }

/-- A folded GET endpoint at the given path. -/
def epFold (p : String) : Endpoint :=
  { path := p, method := "GET", op := emptyOp, folded := true }

/-- An unfolded GET endpoint at the given path (2 rendered rows). -/
def epUnfold (p : String) : Endpoint :=
  { path := p, method := "GET", op := emptyOp, folded := false }

/-- A document with no paths, components or webhooks. -/
def baseDoc : OpenAPIDoc :=
  { openapi := "3.0.0", paths := [], components := none, extensions := [] }

/-- A path item with only GET and DELETE operations. -/
def piGetDelete : PathItem :=
  { get := some emptyOp, post := none, put := none, delete := some emptyOp,
    patch := none, head := none, options := none, trace := none }

/-- A document with one path carrying GET and DELETE. -/
def docGetDelete : OpenAPIDoc :=
  { openapi := "3.0.0", paths := [("/pets", piGetDelete)], components := none, extensions := [] }

/-- A path item with only a GET operation. -/
def piGet : PathItem :=
  { get := some emptyOp, post := none, put := none, delete := none,
    patch := none, head := none, options := none, trace := none }

/-- Two-path document, paths listed in one hash order... -/
def docTwoPathsA : OpenAPIDoc :=
  { openapi := "3.0.0", paths := [("/a", piGet), ("/b", piGet)], components := none,
    extensions := [] }

/-- ...and the same two paths listed in the other order. -/
def twoPathsRev : List (String × PathItem) := [("/b", piGet), ("/a", piGet)]

/-- Viewport-engine state for the visibility-bound counterexample:
height 10 (content height 2), a folded then an unfolded endpoint,
cursor on the second, scroll offset 0. -/
def mC2 : Model :=
  { doc := baseDoc, endpoints := [epFold "/a", epUnfold "/b"], components := [], webhooks := [],
    cursor := 1, mode := .endpoints, width := 80, height := 10, showHelp := false,
    lastKey := "", lastKeyAt := 0, scrollOffset := 0 }

/-- State for the fold/resize counterexample: height 11 (content height 3),
three folded endpoints, cursor on the last, scroll offset 0. -/
def mC7 : Model :=
  { doc := baseDoc, endpoints := [epFold "/a", epFold "/b", epFold "/c"],
    components := [], webhooks := [],
    cursor := 2, mode := .endpoints, width := 80, height := 11, showHelp := false,
    lastKey := "", lastKeyAt := 0, scrollOffset := 0 }

/-- Same with the last endpoint already unfolded and a tall viewport, about
to be resized down. -/
def mC7r : Model :=
  { mC7 with endpoints := [epFold "/a", epFold "/b", epUnfold "/c"], height := 40 }

/-- State for the `gg` counterexample: two folded endpoints, tall viewport. -/
def mC8 : Model :=
  { doc := baseDoc, endpoints := [epFold "/a", epFold "/b"], components := [], webhooks := [],
    cursor := 0, mode := .endpoints, width := 80, height := 24, showHelp := false,
    lastKey := "", lastKeyAt := 0, scrollOffset := 0 }

/-- `g`, then an unrelated `j`, then `g` again, all within 500ms. -/
def msC8 : List Msg :=
  [.key "g" 0, .key "j" (100 * 1000000), .key "g" (200 * 1000000)]

/-- The state after the first `g` press: a pending prefix stamped at 0. -/
def mC8g : Model :=
  { mC8 with cursor := 1, lastKey := "g", lastKeyAt := 0 }

/-- A response with a plain description. -/
def respD (d : String) : Response :=
  { description := some d, content := [], headers := [] }

/-- A responses map holding the tie-equivalent codes `200` and `+200`
(both parse to the integer 200), in one hash order... -/
def respsTie : List (String × Option Response) :=
  [("200", some (respD "a")), ("+200", some (respD "b"))]

/-- ...and in the other hash order. -/
def respsTieRev : List (String × Option Response) :=
  [("+200", some (respD "b")), ("200", some (respD "a"))]

def epTieA : Endpoint :=
  { path := "/t", method := "GET", op := { emptyOp with responses := some respsTie },
    folded := true }

def epTieB : Endpoint :=
  { path := "/t", method := "GET", op := { emptyOp with responses := some respsTieRev },
    folded := true }

/-- A responses map with two distinct, non-tied response codes. -/
def respsOk : List (String × Option Response) :=
  [("404", some (respD "nf")), ("200", some (respD "ok"))]

/-- The same responses map in the other iteration order. -/
def respsOkRev : List (String × Option Response) :=
  [("200", some (respD "ok")), ("404", some (respD "nf"))]

def epOkA : Endpoint :=
  { path := "/t", method := "GET", op := { emptyOp with responses := some respsOk },
    folded := true }

/-- Navigation-command witness sequence. -/
def msC3 : List Msg :=
  [.key "j" 0, .key "j" 10, .key "g" 20, .key "g" (100 * 1000000), .key "G" (300 * 1000000),
   .key "k" (400 * 1000000)]

/-! ### Generic theory of `goSortBy`

Each comparator passed to `sort.Slice` in the source is characterised by a
sort key into a linear order; from that we obtain sortedness of the output,
that the output is a permutation of the input, and that the output is
uniquely determined by the input multiset when the key is injective on the
input's members (which is what makes repeated extraction deterministic
despite hash-ordered iteration). -/

section SortTheory

variable {α K : Type} [LinearOrder K]

/-- Two lists sorted by a key are equal when they are permutations of each
other and the key is injective on their members. -/
theorem sorted_perm_eq (κ : α → K) {l₁ l₂ : List α} (hp : l₁.Perm l₂)
    (hs₁ : l₁.Pairwise (fun a b => κ a ≤ κ b)) (hs₂ : l₂.Pairwise (fun a b => κ a ≤ κ b))
    (hinj : ∀ a ∈ l₁, ∀ b ∈ l₁, κ a = κ b → a = b) : l₁ = l₂ := by
  induction l₁ generalizing l₂ with
  | nil => exact hp.nil_eq
  | cons a t₁ ih =>
    cases l₂ with
    | nil => exact absurd hp.symm (by simp)
    | cons b t₂ =>
      have hab : a = b := by
        by_contra hne
        have ha2 : a ∈ t₂ := by
          rcases List.mem_cons.mp (hp.subset (List.mem_cons_self a t₁)) with h | h
          · exact absurd h hne
          · exact h
        have hb1 : b ∈ t₁ := by
          rcases List.mem_cons.mp (hp.symm.subset (List.mem_cons_self b t₂)) with h | h
          · exact absurd h.symm hne
          · exact h
        have h1 : κ a ≤ κ b := (List.pairwise_cons.mp hs₁).1 b hb1
        have h2 : κ b ≤ κ a := (List.pairwise_cons.mp hs₂).1 a ha2
        exact hne (hinj a (List.mem_cons_self a t₁) b (List.mem_cons_of_mem a hb1)
          (le_antisymm h1 h2))
      subst hab
      have := ih hp.cons_inv (List.Pairwise.of_cons hs₁) (List.Pairwise.of_cons hs₂)
        (fun x hx y hy h => hinj x (List.mem_cons_of_mem a hx) y (List.mem_cons_of_mem a hy) h)
      rw [this]

variable (less : α → α → Bool) (κ : α → K)

theorem goSortBy_perm (l : List α) : (goSortBy less l).Perm l :=
  List.perm_insertionSort _ l

theorem goSortBy_le_char (hchar : ∀ a b, less a b = true ↔ κ a < κ b) (a b : α) :
    less b a = false ↔ κ a ≤ κ b := by
  rw [← not_lt, ← hchar b a]
  simp

theorem goSortBy_sorted (hchar : ∀ a b, less a b = true ↔ κ a < κ b) (l : List α) :
    (goSortBy less l).Pairwise (fun a b => κ a ≤ κ b) := by
  haveI ht : IsTotal α (fun a b => less b a = false) := ⟨by
    intro a b
    rcases le_total (κ a) (κ b) with h | h
    · exact Or.inl ((goSortBy_le_char less κ hchar a b).mpr h)
    · exact Or.inr ((goSortBy_le_char less κ hchar b a).mpr h)⟩
  haveI htr : IsTrans α (fun a b => less b a = false) := ⟨by
    intro a b c hab hbc
    exact (goSortBy_le_char less κ hchar a c).mpr
      (le_trans ((goSortBy_le_char less κ hchar a b).mp hab)
        ((goSortBy_le_char less κ hchar b c).mp hbc))⟩
  have h := List.sorted_insertionSort (fun a b => less b a = false) l
  exact h.imp (fun hab => (goSortBy_le_char less κ hchar _ _).mp hab)

theorem goSortBy_eq_of_perm (hchar : ∀ a b, less a b = true ↔ κ a < κ b)
    {l l' : List α} (hp : l.Perm l')
    (hinj : ∀ a ∈ l, ∀ b ∈ l, κ a = κ b → a = b) :
    goSortBy less l = goSortBy less l' := by
  apply sorted_perm_eq κ
  · exact (goSortBy_perm less l).trans (hp.trans (goSortBy_perm less l').symm)
  · exact goSortBy_sorted less κ hchar l
  · exact goSortBy_sorted less κ hchar l'
  · intro a ha b hb
    exact hinj a ((goSortBy_perm less l).subset ha) b ((goSortBy_perm less l).subset hb)

end SortTheory

/-! ### Characterisations of the comparators by their sort keys -/

theorem strLtb_lex (l₁ l₂ : List Char) :
    strLtb l₁ l₂ = true ↔ List.Lex (· < ·) l₁ l₂ := by
  induction l₁ generalizing l₂ with
  | nil =>
    cases l₂ with
    | nil =>
      simp only [strLtb, Bool.false_eq_true, false_iff]
      intro h
      cases h
    | cons d ds =>
      simp only [strLtb, true_iff]
      exact List.Lex.nil
  | cons c cs ih =>
    cases l₂ with
    | nil =>
      simp only [strLtb, Bool.false_eq_true, false_iff]
      intro h
      cases h
    | cons d ds =>
      rcases lt_trichotomy c d with h | h | h
      · simp only [strLtb, h, if_pos, true_iff]
        exact List.Lex.rel h
      · subst h
        simp only [strLtb, lt_irrefl, if_neg, ih, not_false_iff]
        constructor
        · exact fun hl => List.Lex.cons hl
        · intro hl
          cases hl with
          | cons h => exact h
          | rel h => exact absurd h (lt_irrefl c)
      · have h1 : ¬c < d := not_lt_of_gt h
        simp only [strLtb, h1, if_neg, h, if_pos, Bool.false_eq_true, false_iff,
          not_false_iff]
        intro hl
        cases hl with
        | cons _ => exact absurd rfl (ne_of_gt h)
        | rel h2 => exact absurd h2 h1

theorem goStrLt_iff (a b : String) : goStrLt a b = true ↔ a < b := by
  rw [String.lt_iff_toList_lt]
  exact strLtb_lex a.data b.data

theorem endpointLess_char (a b : Endpoint) :
    endpointLess a b = true ↔ endpointKey a < endpointKey b := by
  unfold endpointLess endpointKey
  rw [Prod.Lex.lt_iff]
  by_cases h : a.path = b.path
  · simp [h, goStrLt_iff]
  · simp [h, goStrLt_iff]

theorem componentLess_char (a b : Component) :
    componentLess a b = true ↔ componentKey a < componentKey b := by
  unfold componentLess componentKey
  rw [Prod.Lex.lt_iff]
  by_cases h : a.compType = b.compType
  · simp [h, goStrLt_iff]
  · simp [h, goStrLt_iff]

theorem webhookLess_char (a b : Webhook) :
    webhookLess a b = true ↔ webhookKey a < webhookKey b := by
  unfold webhookLess webhookKey
  rw [Prod.Lex.lt_iff]
  by_cases h : a.name = b.name
  · simp [h, goStrLt_iff]
  · simp [h, goStrLt_iff]

theorem respLess_char (a b : String) :
    respLess a b = true ↔ respKey a < respKey b := by
  unfold respLess respKey
  rcases goAtoi a with _ | i <;> rcases goAtoi b with _ | j <;>
    simp [Sum.Lex.inl_lt_inl_iff, Sum.Lex.inl_lt_inr, Sum.Lex.not_inr_lt_inl,
      Sum.Lex.inr_lt_inr_iff, goStrLt_iff]

theorem stringLess_char (a b : String) :
    goStrLt a b = true ↔ (a : String) < b :=
  goStrLt_iff a b

/-! ### Response-code ordering -/

theorem sortResponseCodes_sorted (codes : List String) :
    (sortResponseCodes codes).Pairwise (fun a b => respKey a ≤ respKey b) :=
  goSortBy_sorted respLess respKey respLess_char codes

theorem sortResponseCodes_perm (codes : List String) :
    (sortResponseCodes codes).Perm codes :=
  goSortBy_perm respLess codes

/-- A list sorted by `respKey` splits into a numeric block followed by a
non-numeric block. -/
theorem split_by_numeric {l : List String}
    (hs : l.Pairwise (fun a b => respKey a ≤ respKey b)) :
    ∃ num nonnum, l = num ++ nonnum ∧ (∀ s ∈ num, (goAtoi s).isSome = true) ∧
      ∀ s ∈ nonnum, goAtoi s = none := by
  induction l with
  | nil => exact ⟨[], [], rfl, by simp, by simp⟩
  | cons a t ih =>
    obtain ⟨hha, ht⟩ := List.pairwise_cons.mp hs
    cases hga : goAtoi a with
    | some i =>
      obtain ⟨num, nonnum, heq, hnum, hnn⟩ := ih ht
      refine ⟨a :: num, nonnum, by simp [heq], ?_, hnn⟩
      intro s hsmem
      rcases List.mem_cons.mp hsmem with rfl | hmem
      · simp [hga]
      · exact hnum s hmem
    | none =>
      refine ⟨[], a :: t, by simp, by simp, ?_⟩
      intro s hsmem
      rcases List.mem_cons.mp hsmem with rfl | hmem
      · exact hga
      · cases hgs : goAtoi s with
        | none => rfl
        | some j =>
          exfalso
          have hle := hha s hmem
          simp only [respKey, hga, hgs] at hle
          exact Sum.Lex.not_inr_le_inl hle

/-- C6: `sortResponseCodes` sorts any list of response-code strings so that
all numeric codes come first in numerically ascending order, followed by all
non-numeric codes in lexicographically ascending order; in particular
`["500","200","default","404","201"]` sorts to
`["200","201","404","500","default"]`, and a list with no numeric codes
sorts purely lexicographically. -/
theorem claim_C6 :
    (∀ codes : List String, ∃ num nonnum,
      sortResponseCodes codes = num ++ nonnum ∧
      (sortResponseCodes codes).Perm codes ∧
      (∀ s ∈ num, (goAtoi s).isSome = true) ∧
      (∀ s ∈ nonnum, goAtoi s = none) ∧
      num.Pairwise (fun a b => ∃ i j, goAtoi a = some i ∧ goAtoi b = some j ∧ i ≤ j) ∧
      nonnum.Pairwise (fun a b => a ≤ b)) ∧
    sortResponseCodes ["500", "200", "default", "404", "201"] =
      ["200", "201", "404", "500", "default"] ∧
    sortResponseCodes ["default", "error", "abc"] = ["abc", "default", "error"] := by
  refine ⟨?_, by decide, by decide⟩
  intro codes
  obtain ⟨num, nonnum, heq, hnum, hnn⟩ := split_by_numeric (sortResponseCodes_sorted codes)
  have hs := sortResponseCodes_sorted codes
  rw [heq] at hs
  obtain ⟨hs1, hs2, _⟩ := List.pairwise_append.mp hs
  refine ⟨num, nonnum, heq, sortResponseCodes_perm codes, hnum, hnn, ?_, ?_⟩
  · refine hs1.imp_of_mem ?_
    intro a b ha hb hle
    obtain ⟨i, hi⟩ := Option.isSome_iff_exists.mp (hnum a ha)
    obtain ⟨j, hj⟩ := Option.isSome_iff_exists.mp (hnum b hb)
    refine ⟨i, j, hi, hj, ?_⟩
    simp only [respKey, hi, hj] at hle
    exact Sum.Lex.inl_le_inl_iff.mp hle
  · refine hs2.imp_of_mem ?_
    intro a b ha hb hle
    simp only [respKey, hnn a ha, hnn b hb] at hle
    exact Sum.Lex.inr_le_inr_iff.mp hle

/-! ### Sortedness of the extracted collections -/

theorem extractEndpoints_sorted (doc : OpenAPIDoc) :
    (extractEndpoints doc).Pairwise
      (fun a b => a.path < b.path ∨ (a.path = b.path ∧ a.method ≤ b.method)) := by
  have h := goSortBy_sorted endpointLess endpointKey endpointLess_char
    (doc.paths.flatMap (fun p => pathEndpoints p.1 p.2))
  exact h.imp (fun hab => (Prod.Lex.le_iff _ _).mp hab)

theorem extractComponents_sorted (doc : OpenAPIDoc) :
    (extractComponents doc).Pairwise
      (fun a b => a.compType < b.compType ∨ (a.compType = b.compType ∧ a.name ≤ b.name)) := by
  have h := goSortBy_sorted componentLess componentKey componentLess_char
    (extractComponentsRaw doc)
  exact h.imp (fun hab => (Prod.Lex.le_iff _ _).mp hab)

theorem parseWebhooksFromData_sorted (wd : List (String × GoVal)) :
    (parseWebhooksFromData wd).Pairwise
      (fun a b => a.name < b.name ∨ (a.name = b.name ∧ a.method ≤ b.method)) := by
  have h := goSortBy_sorted webhookLess webhookKey webhookLess_char (webhooksRaw wd)
  exact h.imp (fun hab => (Prod.Lex.le_iff _ _).mp hab)

theorem extractWebhooks_sorted (doc : OpenAPIDoc) :
    (extractWebhooks doc).Pairwise
      (fun a b => a.name < b.name ∨ (a.name = b.name ∧ a.method ≤ b.method)) := by
  unfold extractWebhooks
  split
  · exact List.Pairwise.nil
  · split
    · exact parseWebhooksFromData_sorted _
    · exact List.Pairwise.nil

/-! ### Determinism of extraction and formatting under hash reordering -/

theorem lookup_cons {β : Type} (k' : String) (v' : β) (t : List (String × β)) (k : String) :
    lookup ((k', v') :: t) k = if k' = k then some v' else lookup t k := by
  simp only [lookup, List.find?_cons]
  by_cases h : k' = k
  · simp [h]
  · simp [h]

theorem lookup_eq_some_iff {β : Type} {l : List (String × β)} {k : String} {v : β}
    (hnd : (l.map Prod.fst).Nodup) : lookup l k = some v ↔ (k, v) ∈ l := by
  induction l with
  | nil => simp [lookup]
  | cons p t ih =>
    obtain ⟨k', v'⟩ := p
    rw [lookup_cons]
    simp only [List.map_cons, List.nodup_cons] at hnd
    obtain ⟨hknotin, hndt⟩ := hnd
    by_cases h : k' = k
    · subst h
      rw [if_pos rfl]
      simp only [Option.some.injEq, List.mem_cons, Prod.mk.injEq, true_and]
      constructor
      · intro hv
        exact Or.inl hv.symm
      · rintro (hv | hm)
        · exact hv.symm
        · exact absurd (List.mem_map.mpr ⟨(k', v), hm, rfl⟩) hknotin
    · rw [if_neg h, ih hndt]
      simp only [List.mem_cons, Prod.mk.injEq]
      constructor
      · intro hm
        exact Or.inr hm
      · rintro (⟨hk, _⟩ | hm)
        · exact absurd hk.symm h
        · exact hm

theorem lookup_perm {β : Type} {l l' : List (String × β)} (hp : l.Perm l')
    (hnd : (l.map Prod.fst).Nodup) (k : String) : lookup l k = lookup l' k := by
  have hnd' : (l'.map Prod.fst).Nodup := ((hp.map Prod.fst).nodup_iff).mp hnd
  cases h : lookup l k with
  | some v =>
    rw [(lookup_eq_some_iff hnd').mpr (hp.subset ((lookup_eq_some_iff hnd).mp h))]
  | none =>
    cases h' : lookup l' k with
    | none => rfl
    | some v =>
      have hc := (lookup_eq_some_iff hnd).mpr (hp.symm.subset ((lookup_eq_some_iff hnd').mp h'))
      rw [h] at hc
      exact Option.noConfusion hc

theorem goSortStrings_eq_of_perm {l l' : List String} (hp : l.Perm l') :
    goSortStrings l = goSortStrings l' :=
  goSortBy_eq_of_perm goStrLt id (fun a b => by simpa using goStrLt_iff a b) hp
    (fun a _ b _ h => h)

theorem sortResponseCodes_eq_of_perm {l l' : List String} (hp : l.Perm l')
    (hinj : ∀ a ∈ l, ∀ b ∈ l, respKey a = respKey b → a = b) :
    sortResponseCodes l = sortResponseCodes l' :=
  goSortBy_eq_of_perm respLess respKey respLess_char hp hinj

/-- Formatting an endpoint is unchanged when its responses map is iterated in
another order, provided the map's keys are unique (as Go map keys are) and no
two distinct codes are tie-equivalent under the response-code comparator. -/
theorem formatEndpointDetails_responses_det (ep : Endpoint)
    (resps resps' : List (String × Option Response))
    (hre : ep.op.responses = some resps)
    (hp : resps'.Perm resps)
    (hnd : (resps.map Prod.fst).Nodup)
    (hti : ∀ a ∈ resps.map Prod.fst, ∀ b ∈ resps.map Prod.fst,
      respKey a = respKey b → a = b) :
    formatEndpointDetails { ep with op := { ep.op with responses := some resps' } } =
      formatEndpointDetails ep := by
  have hkeys : (resps'.map Prod.fst).Perm (resps.map Prod.fst) := hp.map Prod.fst
  have hnd' : (resps'.map Prod.fst).Nodup := hkeys.nodup_iff.mpr hnd
  have hcodes : sortResponseCodes (resps'.map Prod.fst) =
      sortResponseCodes (resps.map Prod.fst) := by
    apply sortResponseCodes_eq_of_perm hkeys
    intro a ha b hb hk
    exact hti a (hkeys.subset ha) b (hkeys.subset hb) hk
  have hl : lookup resps' = lookup resps := funext (lookup_perm hp hnd')
  simp only [formatEndpointDetails, hre, hcodes, hl]

/-- Formatting an endpoint is unchanged when its request body's content map is
iterated in another order. -/
theorem formatEndpointDetails_content_det (ep : Endpoint) (rb : RequestBody)
    (content' : List (String × MediaType))
    (hrb : ep.op.requestBody = some (some rb))
    (hp : content'.Perm rb.content) :
    formatEndpointDetails
      { ep with op :=
        { ep.op with requestBody := some (some { rb with content := content' }) } } =
      formatEndpointDetails ep := by
  have hmt : goSortStrings (content'.map Prod.fst) = goSortStrings (rb.content.map Prod.fst) :=
    goSortStrings_eq_of_perm (hp.map Prod.fst)
  simp only [formatEndpointDetails, hrb, hmt]

/-- The (path, method) keys of a path's endpoints form a sublist of the
eight-method key list for that path. -/
theorem pathEndpoints_key_sublist (p : String) (it : PathItem) :
    ((pathEndpoints p it).map (fun e => (e.path, e.method))).Sublist
      [(p, "GET"), (p, "POST"), (p, "PUT"), (p, "DELETE"),
       (p, "PATCH"), (p, "HEAD"), (p, "OPTIONS"), (p, "TRACE")] := by
  have hb : ∀ (f : Option Operation) (M : String),
      ((match f with
        | some op => ([{ path := p, method := M, op := op, folded := true }] : List Endpoint)
        | none => ([] : List Endpoint)).map
          (fun e : Endpoint => (e.path, e.method))).Sublist [(p, M)] := by
    intro f M
    cases f <;> simp
  have h := (((((((hb it.get "GET").append (hb it.post "POST")).append
    (hb it.put "PUT")).append (hb it.delete "DELETE")).append
    (hb it.patch "PATCH")).append (hb it.head "HEAD")).append
    (hb it.options "OPTIONS")).append (hb it.trace "TRACE")
  simpa [pathEndpoints, List.map_append] using h

theorem mem_pathEndpoints_key (p : String) (it : PathItem) (x : String × String)
    (hx : x ∈ (pathEndpoints p it).map (fun e => (e.path, e.method))) : x.1 = p := by
  have h := (pathEndpoints_key_sublist p it).subset hx
  simp only [List.mem_cons, List.not_mem_nil, or_false] at h
  rcases h with h | h | h | h | h | h | h | h <;> (subst h; rfl)

theorem extractEndpointsRaw_keys_nodup (doc : OpenAPIDoc)
    (hnd : (doc.paths.map Prod.fst).Nodup) :
    ((extractEndpointsRaw doc).map (fun e => (e.path, e.method))).Nodup := by
  unfold extractEndpointsRaw
  rw [List.map_flatMap, List.nodup_flatMap]
  constructor
  · intro p _
    apply List.Nodup.sublist (pathEndpoints_key_sublist p.1 p.2)
    apply List.Nodup.of_map Prod.snd
    have : List.map Prod.snd
        [(p.1, "GET"), (p.1, "POST"), (p.1, "PUT"), (p.1, "DELETE"),
         (p.1, "PATCH"), (p.1, "HEAD"), (p.1, "OPTIONS"), (p.1, "TRACE")] =
        ["GET", "POST", "PUT", "DELETE", "PATCH", "HEAD", "OPTIONS", "TRACE"] := by
      simp
    rw [this]
    decide
  · have hpw : doc.paths.Pairwise (fun a b => a.1 ≠ b.1) := List.pairwise_map.mp hnd
    refine hpw.imp ?_
    intro a b hne x hxa hxb
    exact hne ((mem_pathEndpoints_key a.1 a.2 x hxa).symm.trans
      (mem_pathEndpoints_key b.1 b.2 x hxb))

theorem endpointKey_inj {a b : Endpoint} (h : endpointKey a = endpointKey b) :
    (a.path, a.method) = (b.path, b.method) := by
  simpa [endpointKey] using h

/-- Re-extracting endpoints from the same paths map, iterated in another hash
order, yields the identical sorted list. -/
theorem extractEndpoints_det (doc : OpenAPIDoc) (paths' : List (String × PathItem))
    (hp : paths'.Perm doc.paths) (hnd : (doc.paths.map Prod.fst).Nodup) :
    extractEndpoints { doc with paths := paths' } = extractEndpoints doc := by
  unfold extractEndpoints
  have hperm : (extractEndpointsRaw { doc with paths := paths' }).Perm
      (extractEndpointsRaw doc) := by
    unfold extractEndpointsRaw
    exact hp.flatMap_right _
  apply goSortBy_eq_of_perm endpointLess endpointKey endpointLess_char hperm
  intro a ha b hb hk
  exact List.inj_on_of_nodup_map (extractEndpointsRaw_keys_nodup doc hnd)
    (hperm.subset ha) (hperm.subset hb) (endpointKey_inj hk)

/-- Nodup for keys generated blockwise as (block name, member name) pairs. -/
theorem keyBlocks_nodup (blocks : List (String × List String))
    (hb : ∀ p ∈ blocks, p.2.Nodup) (hc : (blocks.map Prod.fst).Nodup) :
    (blocks.flatMap (fun p => p.2.map (fun n => (p.1, n)))).Nodup := by
  rw [List.nodup_flatMap]
  constructor
  · intro p hp
    exact (hb p hp).map (fun a b h => by simpa using h)
  · have hpw := List.pairwise_map.mp hc
    refine hpw.imp ?_
    intro a b hne x hxa hxb
    simp only [List.mem_map] at hxa hxb
    obtain ⟨n, _, rfl⟩ := hxa
    obtain ⟨n', _, h⟩ := hxb
    exact hne (by simpa using congrArg Prod.fst h.symm)

theorem componentKey_inj {a b : Component} (h : componentKey a = componentKey b) :
    (a.compType, a.name) = (b.compType, b.name) := by
  simpa [componentKey] using h

theorem extractComponentsRaw_keys_eq (doc : OpenAPIDoc) (c : Components)
    (hdoc : doc.components = some c) :
    (extractComponentsRaw doc).map (fun x => (x.compType, x.name)) =
      [("Schema", c.schemas.map Prod.fst),
       ("RequestBody", c.requestBodies.map Prod.fst),
       ("Response", c.responses.map Prod.fst),
       ("Parameter", c.parameters.map Prod.fst),
       ("Header", c.headers.map Prod.fst),
       ("SecurityScheme", c.securitySchemes.map Prod.fst)].flatMap
        (fun p => p.2.map (fun n => (p.1, n))) := by
  unfold extractComponentsRaw
  rw [hdoc]
  simp [List.map_append, List.map_map, List.append_assoc, Function.comp_def]

theorem extractComponentsRaw_keys_nodup (doc : OpenAPIDoc) (c : Components)
    (hdoc : doc.components = some c)
    (n1 : (c.schemas.map Prod.fst).Nodup) (n2 : (c.requestBodies.map Prod.fst).Nodup)
    (n3 : (c.responses.map Prod.fst).Nodup) (n4 : (c.parameters.map Prod.fst).Nodup)
    (n5 : (c.headers.map Prod.fst).Nodup) (n6 : (c.securitySchemes.map Prod.fst).Nodup) :
    ((extractComponentsRaw doc).map (fun x => (x.compType, x.name))).Nodup := by
  rw [extractComponentsRaw_keys_eq doc c hdoc]
  apply keyBlocks_nodup
  · intro p hp
    simp only [List.mem_cons, List.not_mem_nil, or_false] at hp
    rcases hp with h | h | h | h | h | h <;> (subst h; assumption)
  · simp only [List.map_cons, List.map_nil]
    decide

/-- Re-extracting components from the same component maps, each iterated in
another hash order, yields the identical sorted list. -/
theorem extractComponents_det (doc : OpenAPIDoc) (c c' : Components)
    (hdoc : doc.components = some c)
    (h1 : c'.schemas.Perm c.schemas) (h2 : c'.requestBodies.Perm c.requestBodies)
    (h3 : c'.responses.Perm c.responses) (h4 : c'.parameters.Perm c.parameters)
    (h5 : c'.headers.Perm c.headers) (h6 : c'.securitySchemes.Perm c.securitySchemes)
    (n1 : (c.schemas.map Prod.fst).Nodup) (n2 : (c.requestBodies.map Prod.fst).Nodup)
    (n3 : (c.responses.map Prod.fst).Nodup) (n4 : (c.parameters.map Prod.fst).Nodup)
    (n5 : (c.headers.map Prod.fst).Nodup) (n6 : (c.securitySchemes.map Prod.fst).Nodup) :
    extractComponents { doc with components := some c' } = extractComponents doc := by
  unfold extractComponents
  have hperm : (extractComponentsRaw { doc with components := some c' }).Perm
      (extractComponentsRaw doc) := by
    unfold extractComponentsRaw
    rw [hdoc]
    exact ((((((h1.map _).append (h2.map _)).append (h3.map _)).append
      (h4.map _)).append (h5.map _)).append (h6.map _))
  apply goSortBy_eq_of_perm componentLess componentKey componentLess_char hperm
  intro a ha b hb hk
  exact List.inj_on_of_nodup_map
    (extractComponentsRaw_keys_nodup doc c hdoc n1 n2 n3 n4 n5 n6)
    (hperm.subset ha) (hperm.subset hb) (componentKey_inj hk)

theorem mem_hookEndpoints_key (n : String) (v : GoVal) (x : String × String)
    (hx : x ∈ (hookEndpoints n v).map (fun w => (w.name, w.method))) : x.1 = n := by
  cases v with
  | vmap hm =>
    simp only [hookEndpoints, List.map_flatMap, List.mem_flatMap] at hx
    obtain ⟨q, _, hxq⟩ := hx
    by_cases hq : isHTTPMethod q.1
    · rw [if_pos hq] at hxq
      cases hv : q.2 with
      | vmap mm =>
        rw [hv] at hxq
        simp only [List.map_cons, List.map_nil, List.mem_cons, List.not_mem_nil,
          or_false] at hxq
        rw [hxq]
      | str s =>
        rw [hv] at hxq
        simp at hxq
      | other =>
        rw [hv] at hxq
        simp at hxq
    · rw [if_neg hq] at hxq
      simp at hxq
  | str s => simp [hookEndpoints] at hx
  | other => simp [hookEndpoints] at hx

theorem hookEndpoints_keys_nodup (n : String) (v : GoVal) (hc : hookClean v) :
    ((hookEndpoints n v).map (fun w => (w.name, w.method))).Nodup := by
  cases v with
  | vmap hm =>
    obtain ⟨hnd, hinj⟩ := hc
    have hblock : ∀ (q : String × GoVal) (x : String × String),
        x ∈ ((if isHTTPMethod q.1 then
            match q.2 with
            | GoVal.vmap methodMap =>
              [{ name := n, method := goToUpper q.1,
                 op := { summary := getStrField methodMap "summary",
                         description := getStrField methodMap "description",
                         operationID := getStrField methodMap "operationId",
                         parameters := [], requestBody := none, responses := none },
                 folded := true }]
            | _ => ([] : List Webhook)
          else []).map (fun w => (w.name, w.method))) →
        x = (n, goToUpper q.1) := by
      intro q x hx
      by_cases hq : isHTTPMethod q.1
      · rw [if_pos hq] at hx
        cases hv : q.2 with
        | vmap mm =>
          rw [hv] at hx
          simpa using hx
        | str s =>
          rw [hv] at hx
          simp at hx
        | other =>
          rw [hv] at hx
          simp at hx
      · rw [if_neg hq] at hx
        simp at hx
    simp only [hookEndpoints, List.map_flatMap]
    rw [List.nodup_flatMap]
    constructor
    · intro q _
      by_cases hq : isHTTPMethod q.1
      · rw [if_pos hq]
        cases q.2 <;> simp
      · rw [if_neg hq]
        simp
    · have hpw : hm.Pairwise (fun a b => a.1 ≠ b.1) := List.pairwise_map.mp hnd
      refine hpw.imp_of_mem ?_
      intro a b ha hb hne x hxa hxb
      have h1 := hblock a x hxa
      have h2 := hblock b x hxb
      rw [h1] at h2
      have hup : goToUpper a.1 = goToUpper b.1 := by simpa using h2
      exact hne (hinj a.1 (List.mem_map.mpr ⟨a, ha, rfl⟩) b.1 (List.mem_map.mpr ⟨b, hb, rfl⟩) hup)
  | str s => simp [hookEndpoints]
  | other => simp [hookEndpoints]

theorem webhooksRaw_keys_nodup (wd : List (String × GoVal))
    (hnames : (wd.map Prod.fst).Nodup) (hclean : ∀ p ∈ wd, hookClean p.2) :
    ((webhooksRaw wd).map (fun w => (w.name, w.method))).Nodup := by
  unfold webhooksRaw
  rw [List.map_flatMap, List.nodup_flatMap]
  constructor
  · intro p hp
    exact hookEndpoints_keys_nodup p.1 p.2 (hclean p hp)
  · have hpw := List.pairwise_map.mp hnames
    refine hpw.imp ?_
    intro a b hne x hxa hxb
    exact hne ((mem_hookEndpoints_key a.1 a.2 x hxa).symm.trans
      (mem_hookEndpoints_key b.1 b.2 x hxb))

theorem webhookKey_inj {a b : Webhook} (h : webhookKey a = webhookKey b) :
    (a.name, a.method) = (b.name, b.method) := by
  simpa [webhookKey] using h

/-- Re-parsing webhooks from the same webhooks map, iterated in another hash
order, yields the identical sorted list. -/
theorem parseWebhooks_det_outer (wd wd' : List (String × GoVal)) (hp : wd'.Perm wd)
    (hnames : (wd.map Prod.fst).Nodup) (hclean : ∀ p ∈ wd, hookClean p.2) :
    parseWebhooksFromData wd' = parseWebhooksFromData wd := by
  unfold parseWebhooksFromData
  have hperm : (webhooksRaw wd').Perm (webhooksRaw wd) := by
    unfold webhooksRaw
    exact hp.flatMap_right _
  apply goSortBy_eq_of_perm webhookLess webhookKey webhookLess_char hperm
  intro a ha b hb hk
  exact List.inj_on_of_nodup_map (webhooksRaw_keys_nodup wd hnames hclean)
    (hperm.subset ha) (hperm.subset hb) (webhookKey_inj hk)

theorem flatMap_perm_of_forall₂ {α β : Type} {l l' : List α} {f : α → List β}
    (h : List.Forall₂ (fun a b => (f a).Perm (f b)) l l') :
    (l.flatMap f).Perm (l'.flatMap f) := by
  induction h with
  | nil => rfl
  | cons hab _ ih => simpa using hab.append ih

/-- Re-parsing webhooks when each hook's method map is iterated in another
hash order yields the identical sorted list. -/
theorem parseWebhooks_det_inner (wd wd' : List (String × GoVal))
    (hrel : List.Forall₂ (fun p q => p.1 = q.1 ∧ hookRel p.2 q.2) wd' wd)
    (hnames : (wd.map Prod.fst).Nodup) (hclean : ∀ p ∈ wd, hookClean p.2) :
    parseWebhooksFromData wd' = parseWebhooksFromData wd := by
  unfold parseWebhooksFromData
  have hperm : (webhooksRaw wd').Perm (webhooksRaw wd) := by
    unfold webhooksRaw
    apply flatMap_perm_of_forall₂
    refine hrel.imp ?_
    rintro ⟨n', v'⟩ ⟨n, v⟩ ⟨hn, hv⟩
    dsimp only at hn hv ⊢
    subst hn
    cases v' with
    | vmap h' =>
      cases v with
      | vmap h =>
        have hvp : h'.Perm h := hv
        exact hvp.flatMap_right _
      | str s => exact absurd hv (by simp [hookRel])
      | other => exact absurd hv (by simp [hookRel])
    | str s =>
      have : GoVal.str s = v := hv
      rw [← this]
    | other =>
      have : GoVal.other = v := hv
      rw [← this]
  apply goSortBy_eq_of_perm webhookLess webhookKey webhookLess_char hperm
  intro a ha b hb hk
  exact List.inj_on_of_nodup_map (webhooksRaw_keys_nodup wd hnames hclean)
    (hperm.subset ha) (hperm.subset hb) (webhookKey_inj hk)

/-- Lifting webhook determinism to `extractWebhooks`. -/
theorem extractWebhooks_det (d d' : OpenAPIDoc) (wd wd' : List (String × GoVal))
    (hv : d'.openapi = d.openapi)
    (hw : lookup d.extensions "webhooks" = some (.vmap wd))
    (hw' : lookup d'.extensions "webhooks" = some (.vmap wd'))
    (hparse : parseWebhooksFromData wd' = parseWebhooksFromData wd) :
    extractWebhooks d' = extractWebhooks d := by
  unfold extractWebhooks
  have hvv : isOpenAPI31OrLater d' = isOpenAPI31OrLater d := by
    unfold isOpenAPI31OrLater
    rw [hv]
  rw [hvv, hw, hw']
  by_cases h : isOpenAPI31OrLater d
  · simp [h, hparse]
  · simp [h]

/-- C4 counterexample: a document whose operation carries the two response
codes `200` and `+200` — distinct map keys that the comparator cannot tell
apart (both parse to 200).  The two hash-iteration orders of that same
responses map format to different detail text, so the pipeline is not
deterministic for every document. -/
theorem claim_C4_counterexample :
    respsTieRev.Perm respsTie ∧
    (respsTie.map Prod.fst).Nodup ∧
    epTieB = { epTieA with op := { epTieA.op with responses := some respsTieRev } } ∧
    formatEndpointDetails epTieB ≠ formatEndpointDetails epTieA :=
  ⟨List.Perm.swap _ _ _, by decide, rfl, by decide⟩

/-- C4 (amended): for a fixed parsed document the extraction and formatting
pipeline is deterministic — re-running it over any hash-iteration order of
the underlying maps yields identical sorted collections and byte-identical
detail text — provided (as the counterexample forces) that no responses map
holds two distinct codes that are tie-equivalent under the response-code
comparator, and no webhook method map holds two distinct keys that collapse
to the same HTTP method after upper-casing.  Go maps guarantee the key
uniqueness used below. -/
theorem claim_C4 :
    (∀ (doc : OpenAPIDoc) (paths' : List (String × PathItem)),
      paths'.Perm doc.paths → (doc.paths.map Prod.fst).Nodup →
      extractEndpoints { doc with paths := paths' } = extractEndpoints doc) ∧
    (∀ (doc : OpenAPIDoc) (c c' : Components),
      doc.components = some c →
      c'.schemas.Perm c.schemas → c'.requestBodies.Perm c.requestBodies →
      c'.responses.Perm c.responses → c'.parameters.Perm c.parameters →
      c'.headers.Perm c.headers → c'.securitySchemes.Perm c.securitySchemes →
      (c.schemas.map Prod.fst).Nodup → (c.requestBodies.map Prod.fst).Nodup →
      (c.responses.map Prod.fst).Nodup → (c.parameters.map Prod.fst).Nodup →
      (c.headers.map Prod.fst).Nodup → (c.securitySchemes.map Prod.fst).Nodup →
      extractComponents { doc with components := some c' } = extractComponents doc) ∧
    (∀ (wd wd' : List (String × GoVal)), wd'.Perm wd →
      (wd.map Prod.fst).Nodup → (∀ p ∈ wd, hookClean p.2) →
      parseWebhooksFromData wd' = parseWebhooksFromData wd) ∧
    (∀ (wd wd' : List (String × GoVal)),
      List.Forall₂ (fun p q => p.1 = q.1 ∧ hookRel p.2 q.2) wd' wd →
      (wd.map Prod.fst).Nodup → (∀ p ∈ wd, hookClean p.2) →
      parseWebhooksFromData wd' = parseWebhooksFromData wd) ∧
    (∀ (d d' : OpenAPIDoc) (wd wd' : List (String × GoVal)),
      d'.openapi = d.openapi →
      lookup d.extensions "webhooks" = some (.vmap wd) →
      lookup d'.extensions "webhooks" = some (.vmap wd') →
      wd'.Perm wd → (wd.map Prod.fst).Nodup → (∀ p ∈ wd, hookClean p.2) →
      extractWebhooks d' = extractWebhooks d) ∧
    (∀ (ep : Endpoint) (resps resps' : List (String × Option Response)),
      ep.op.responses = some resps → resps'.Perm resps →
      (resps.map Prod.fst).Nodup →
      (∀ a ∈ resps.map Prod.fst, ∀ b ∈ resps.map Prod.fst,
        respKey a = respKey b → a = b) →
      formatEndpointDetails { ep with op := { ep.op with responses := some resps' } } =
        formatEndpointDetails ep) ∧
    (∀ (ep : Endpoint) (rb : RequestBody) (content' : List (String × MediaType)),
      ep.op.requestBody = some (some rb) → content'.Perm rb.content →
      formatEndpointDetails
        { ep with op :=
          { ep.op with requestBody := some (some { rb with content := content' }) } } =
        formatEndpointDetails ep) :=
  ⟨extractEndpoints_det,
   fun doc c c' hdoc h1 h2 h3 h4 h5 h6 n1 n2 n3 n4 n5 n6 =>
     extractComponents_det doc c c' hdoc h1 h2 h3 h4 h5 h6 n1 n2 n3 n4 n5 n6,
   parseWebhooks_det_outer,
   parseWebhooks_det_inner,
   fun d d' wd wd' hv hw hw' hp hn hc =>
     extractWebhooks_det d d' wd wd' hv hw hw' (parseWebhooks_det_outer wd wd' hp hn hc),
   formatEndpointDetails_responses_det,
   formatEndpointDetails_content_det⟩

theorem claim_C4_witness :
    (twoPathsRev.Perm docTwoPathsA.paths ∧ (docTwoPathsA.paths.map Prod.fst).Nodup ∧
      extractEndpoints { docTwoPathsA with paths := twoPathsRev } =
        extractEndpoints docTwoPathsA) ∧
    (respsOkRev.Perm respsOk ∧ (respsOk.map Prod.fst).Nodup ∧
      (∀ a ∈ respsOk.map Prod.fst, ∀ b ∈ respsOk.map Prod.fst,
        respKey a = respKey b → a = b) ∧
      formatEndpointDetails
        { epOkA with op := { epOkA.op with responses := some respsOkRev } } =
        formatEndpointDetails epOkA) := by
  constructor
  · exact ⟨List.Perm.swap _ _ _, by decide,
      claim_C4.1 docTwoPathsA twoPathsRev (List.Perm.swap _ _ _) (by decide)⟩
  · exact ⟨List.Perm.swap _ _ _, by decide, by decide,
      claim_C4.2.2.2.2.2.1 epOkA respsOk respsOkRev rfl (List.Perm.swap _ _ _)
        (by decide) (by decide)⟩

/-- C5: every extracted collection is sorted by its composite key — endpoints
by path then method (so DELETE sorts before GET within a path), components by
kind then name, webhooks by name then method. -/
theorem claim_C5 :
    (∀ doc, (extractEndpoints doc).Pairwise
      (fun a b => a.path < b.path ∨ (a.path = b.path ∧ a.method ≤ b.method))) ∧
    (∀ doc, (extractComponents doc).Pairwise
      (fun a b => a.compType < b.compType ∨ (a.compType = b.compType ∧ a.name ≤ b.name))) ∧
    (∀ doc, (extractWebhooks doc).Pairwise
      (fun a b => a.name < b.name ∨ (a.name = b.name ∧ a.method ≤ b.method))) ∧
    (extractEndpoints docGetDelete).map (fun e => (e.path, e.method)) =
      [("/pets", "DELETE"), ("/pets", "GET")] :=
  ⟨extractEndpoints_sorted, extractComponents_sorted, extractWebhooks_sorted, by decide⟩

/-! ### The viewport engine: height-sum bridge lemmas -/

theorem find?_congr {α : Type} {p q : α → Bool} (l : List α) (h : ∀ x ∈ l, p x = q x) :
    l.find? p = l.find? q := by
  induction l with
  | nil => rfl
  | cons a t ih =>
    rw [List.find?_cons, List.find?_cons, h a (List.mem_cons_self a t)]
    cases q a with
    | true => rfl
    | false => exact ih (fun x hx => h x (List.mem_cons_of_mem a hx))

theorem activeHeights_length (m : Model) : (activeHeights m).length = itemsLen m := by
  cases hm : m.mode <;> simp [activeHeights, itemsLen, hm]

theorem getItemHeight_eq (m : Model) (i : Nat) :
    getItemHeight m (i : Int) = (activeHeights m)[i]?.getD 1 := by
  cases hm : m.mode with
  | endpoints =>
    simp only [getItemHeight, activeHeights, hm, Int.toNat_natCast, List.getElem?_map]
    cases m.endpoints[i]? <;> simp
  | components =>
    simp only [getItemHeight, activeHeights, hm, Int.toNat_natCast, List.getElem?_map]
    cases m.components[i]? <;> simp
  | webhooks =>
    simp only [getItemHeight, activeHeights, hm, Int.toNat_natCast, List.getElem?_map]
    cases m.webhooks[i]? <;> simp

theorem filterMap_getElem_eq_map {hs : List Int} {l : List Nat}
    (h : ∀ i ∈ l, i < hs.length) :
    l.filterMap (fun i => hs[i]?) = l.map (fun i => hs[i]?.getD 1) := by
  induction l with
  | nil => rfl
  | cons i t ih =>
    have hi : i < hs.length := h i (List.mem_cons_self i t)
    obtain ⟨v, hv⟩ : ∃ v, hs[i]? = some v := ⟨hs[i], List.getElem?_eq_getElem hi⟩
    rw [List.filterMap_cons, List.map_cons, hv]
    simp only [Option.getD_some]
    rw [ih (fun j hj => h j (List.mem_cons_of_mem i hj))]

theorem range_split (n a c : Nat) (hac : a ≤ c) (hc : c < n) :
    List.range n =
      List.range' 0 a ++ List.range' a (c + 1 - a) ++ List.range' (c + 1) (n - (c + 1)) := by
  have h1 := List.range'_append 0 a (c + 1 - a) 1
  have h2 := List.range'_append 0 (c + 1) (n - (c + 1)) 1
  simp only [Nat.one_mul, Nat.zero_add] at h1 h2
  have e1 : c + 1 - a + a = c + 1 := by omega
  have e2 : n - (c + 1) + (c + 1) = n := by omega
  rw [e1] at h1
  rw [e2] at h2
  rw [List.range_eq_range', ← h2, ← h1]

theorem sum_bridge (hs : List Int) (a c : Nat) (hc : c < hs.length) :
    (((List.range hs.length).filter
        (fun (i : Nat) => decide ((a : Int) ≤ (i : Int)) && decide ((i : Int) ≤ (c : Int)))).map
      (fun (i : Nat) => hs[i]?.getD 1)).sum
      = ((List.range' a (c + 1 - a)).filterMap (fun i => hs[i]?)).sum := by
  by_cases hac : a ≤ c
  · rw [range_split hs.length a c hac hc, List.filter_append, List.filter_append]
    have hleft : (List.range' 0 a).filter
        (fun (i : Nat) => decide ((a : Int) ≤ (i : Int)) && decide ((i : Int) ≤ (c : Int))) = [] := by
      rw [List.filter_eq_nil_iff]
      intro i hi
      rw [List.mem_range'_1] at hi
      simp only [Bool.and_eq_true, decide_eq_true_eq, not_and]
      intro hle
      omega
    have hmid : (List.range' a (c + 1 - a)).filter
        (fun (i : Nat) => decide ((a : Int) ≤ (i : Int)) && decide ((i : Int) ≤ (c : Int))) =
        List.range' a (c + 1 - a) := by
      rw [List.filter_eq_self]
      intro i hi
      rw [List.mem_range'_1] at hi
      simp only [Bool.and_eq_true, decide_eq_true_eq]
      omega
    have hright : (List.range' (c + 1) (hs.length - (c + 1))).filter
        (fun (i : Nat) => decide ((a : Int) ≤ (i : Int)) && decide ((i : Int) ≤ (c : Int))) = [] := by
      rw [List.filter_eq_nil_iff]
      intro i hi
      rw [List.mem_range'_1] at hi
      simp only [Bool.and_eq_true, decide_eq_true_eq, not_and]
      intro hle
      omega
    rw [hleft, hmid, hright, List.nil_append, List.append_nil]
    rw [filterMap_getElem_eq_map]
    intro i hi
    rw [List.mem_range'_1] at hi
    omega
  · have hempty : (List.range hs.length).filter
        (fun (i : Nat) => decide ((a : Int) ≤ (i : Int)) && decide ((i : Int) ≤ (c : Int))) = [] := by
      rw [List.filter_eq_nil_iff]
      intro i _
      simp only [Bool.and_eq_true, decide_eq_true_eq, not_and]
      intro hle
      omega
    have hcnt : c + 1 - a = 0 := by omega
    rw [hempty, hcnt]
    rfl

/-- The Go loop sum equals the spec's inclusive-range height sum, for
nonnegative starting offsets and an in-range cursor. -/
theorem codeLinesUsed_eq (m : Model) (s : Int) (hs0 : 0 ≤ s) (hcur : 0 ≤ m.cursor)
    (hlt : m.cursor < (itemsLen m : Int)) :
    codeLinesUsed m s = sumHeightsIcc m s m.cursor := by
  obtain ⟨a, rfl⟩ : ∃ a : Nat, s = (a : Int) := ⟨s.toNat, (Int.toNat_of_nonneg hs0).symm⟩
  obtain ⟨c, hcc⟩ : ∃ c : Nat, m.cursor = (c : Int) :=
    ⟨m.cursor.toNat, (Int.toNat_of_nonneg hcur).symm⟩
  unfold codeLinesUsed sumHeightsIcc
  rw [hcc]
  have hlen : c < (activeHeights m).length := by
    rw [activeHeights_length]
    omega
  have htn : (((c : Int)) - (a : Int) + 1).toNat = c + 1 - a := by omega
  rw [htn, Int.toNat_natCast]
  have hrn : List.range (itemsLen m) = List.range (activeHeights m).length := by
    rw [activeHeights_length]
  rw [hrn]
  have hmap : ∀ (L : List Nat), L.map (fun (i : Nat) => getItemHeight m (i : Int)) =
      L.map (fun (i : Nat) => (activeHeights m)[i]?.getD 1) :=
    fun L => List.map_congr_left (fun i _ => getItemHeight_eq m i)
  rw [hmap]
  exact sum_bridge (activeHeights m) a c hlen

theorem activeHeights_pos (m : Model) : ∀ h ∈ activeHeights m, 1 ≤ h := by
  intro h hh
  have hn : ∀ s : String, 0 ≤ newlineCount s := by
    intro s
    exact Int.natCast_nonneg _
  cases hm : m.mode <;>
  · simp only [activeHeights, hm, List.mem_map] at hh
    obtain ⟨e, _, rfl⟩ := hh
    first
    | (unfold endpointHeight
       split
       · exact le_refl 1
       · have := hn (formatEndpointDetails e)
         omega)
    | (unfold componentHeight
       split
       · exact le_refl 1
       · have := hn e.details
         omega)
    | (unfold webhookHeight
       split
       · exact le_refl 1
       · have := hn (formatWebhookDetails e)
         omega)

theorem sumHeightsIcc_nonneg (m : Model) (lo hi : Int) : 0 ≤ sumHeightsIcc m lo hi := by
  unfold sumHeightsIcc
  apply List.sum_nonneg
  intro x hx
  rw [List.mem_filterMap] at hx
  obtain ⟨i, _, hget⟩ := hx
  have hmem : x ∈ activeHeights m := List.getElem?_mem hget
  have := activeHeights_pos m x hmem
  omega

theorem sumHeightsIcc_single (m : Model) (c : Int) (h0 : 0 ≤ c)
    (hlen : c < (itemsLen m : Int)) :
    sumHeightsIcc m c c = (activeHeights m)[c.toNat]?.getD 1 := by
  unfold sumHeightsIcc
  have h1 : (c - c + 1).toNat = 1 := by omega
  rw [h1]
  have hlt : c.toNat < (activeHeights m).length := by
    rw [activeHeights_length]
    omega
  obtain ⟨v, hv⟩ : ∃ v, (activeHeights m)[c.toNat]? = some v :=
    ⟨_, List.getElem?_eq_getElem hlt⟩
  simp [List.range', hv]

theorem sumHeightsIcc_last_le (m : Model) (lo hi : Int) (h0 : 0 ≤ lo) (hlohi : lo ≤ hi)
    (hlen : hi < (itemsLen m : Int)) :
    (activeHeights m)[hi.toNat]?.getD 1 ≤ sumHeightsIcc m lo hi := by
  unfold sumHeightsIcc
  have hsplit : List.range' lo.toNat ((hi - lo + 1).toNat) =
      List.range' lo.toNat ((hi - lo).toNat) ++ [hi.toNat] := by
    have h := List.range'_append lo.toNat ((hi - lo).toNat) 1 1
    simp only [Nat.one_mul] at h
    have e1 : lo.toNat + (hi - lo).toNat = hi.toNat := by omega
    have e2 : (1 : Nat) + (hi - lo).toNat = (hi - lo + 1).toNat := by omega
    rw [e1] at h
    rw [← e2, ← h]
    rfl
  rw [hsplit, List.filterMap_append, List.sum_append]
  have hlt : hi.toNat < (activeHeights m).length := by
    rw [activeHeights_length]
    omega
  obtain ⟨v, hv⟩ : ∃ v, (activeHeights m)[hi.toNat]? = some v :=
    ⟨_, List.getElem?_eq_getElem hlt⟩
  have hsum1 : 0 ≤ ((List.range' lo.toNat ((hi - lo).toNat)).filterMap
      (fun i => (activeHeights m)[i]?)).sum := by
    apply List.sum_nonneg
    intro x hx
    rw [List.mem_filterMap] at hx
    obtain ⟨i, _, hget⟩ := hx
    have := activeHeights_pos m x (List.getElem?_mem hget)
    omega
  rw [List.filterMap_cons, hv]
  simp only [hv, Option.getD_some, List.filterMap_nil, List.sum_cons, List.sum_nil]
  omega

/-! ### Structural lemmas about `ensureCursorVisible` -/

/-- The function assigns only the `scrollOffset` field. -/
theorem ensure_scrollOffset_only (m : Model) :
    ∃ o, ensureCursorVisible m = { m with scrollOffset := o } := by
  simp only [ensureCursorVisible]
  by_cases h1 : m.cursor = 0
  · rw [if_pos h1]
    exact ⟨0, rfl⟩
  rw [if_neg h1]
  by_cases h2 : itemsLen m = 0
  · rw [if_pos h2]
    exact ⟨m.scrollOffset, rfl⟩
  rw [if_neg h2]
  by_cases h3 : m.cursor < m.scrollOffset
  · rw [if_pos h3]
    exact ⟨m.cursor, rfl⟩
  rw [if_neg h3]
  by_cases h4 : codeLinesUsed m m.scrollOffset +
      (if m.scrollOffset > 0 then 1 else 0) > calculateContentHeight m.height
  · rw [if_pos h4]
    cases hf : (scanCandidates m).find?
        (fun off => decide (testLinesUsed m off ≤ calculateContentHeight m.height)) with
    | some off =>
      by_cases h5 : off < 0
      · rw [if_pos h5]
        exact ⟨0, rfl⟩
      · rw [if_neg h5]
        exact ⟨off, rfl⟩
    | none =>
      by_cases h5 : m.scrollOffset < 0
      · rw [if_pos h5]
        exact ⟨0, rfl⟩
      · rw [if_neg h5]
        exact ⟨m.scrollOffset, rfl⟩
  · rw [if_neg h4]
    by_cases h5 : m.scrollOffset < 0
    · rw [if_pos h5]
      exact ⟨0, rfl⟩
    · rw [if_neg h5]
      exact ⟨m.scrollOffset, rfl⟩

theorem ensure_cursor_zero (m : Model) (h : m.cursor = 0) :
    ensureCursorVisible m = { m with scrollOffset := 0 } := by
  simp only [ensureCursorVisible]
  rw [if_pos h]

theorem mem_scanCandidates (m : Model) (off : Int) (hoff : off ∈ scanCandidates m) :
    m.scrollOffset + 1 ≤ off ∧ off ≤ m.cursor := by
  simp only [scanCandidates, List.mem_map, List.mem_range] at hoff
  obtain ⟨k, hk, rfl⟩ := hoff
  omega

theorem cursor_mem_scanCandidates (m : Model) (h : m.scrollOffset < m.cursor) :
    m.cursor ∈ scanCandidates m := by
  simp only [scanCandidates, List.mem_map, List.mem_range]
  exact ⟨(m.cursor - m.scrollOffset - 1).toNat, by omega, by omega⟩

/-- Bounds on the scroll offset after the call, for states where an empty
active collection implies cursor 0. -/
theorem ensure_bounds (m : Model) (h0 : 0 ≤ m.scrollOffset) (hc : 0 ≤ m.cursor)
    (hempty : itemsLen m = 0 → m.cursor = 0) :
    0 ≤ (ensureCursorVisible m).scrollOffset ∧
      (ensureCursorVisible m).scrollOffset ≤ m.cursor := by
  simp only [ensureCursorVisible]
  by_cases h1 : m.cursor = 0
  · rw [if_pos h1]
    simp [h1]
  rw [if_neg h1]
  by_cases h2 : itemsLen m = 0
  · exact absurd (hempty h2) h1
  rw [if_neg h2]
  by_cases h3 : m.cursor < m.scrollOffset
  · rw [if_pos h3]
    simp [hc]
  rw [if_neg h3]
  have hno : m.scrollOffset ≤ m.cursor := not_lt.mp h3
  by_cases h4 : codeLinesUsed m m.scrollOffset +
      (if m.scrollOffset > 0 then 1 else 0) > calculateContentHeight m.height
  · rw [if_pos h4]
    cases hf : (scanCandidates m).find?
        (fun off => decide (testLinesUsed m off ≤ calculateContentHeight m.height)) with
    | some off =>
      have hmem := mem_scanCandidates m off (List.mem_of_find?_eq_some hf)
      have hoffpos : ¬off < 0 := by omega
      rw [if_neg hoffpos]
      constructor
      · simp only []
        omega
      · simp only []
        omega
    | none =>
      rw [if_neg (by omega : ¬m.scrollOffset < 0)]
      exact ⟨h0, hno⟩
  · rw [if_neg h4]
    rw [if_neg (by omega : ¬m.scrollOffset < 0)]
    exact ⟨h0, hno⟩

/-- C1: `ensureCursorVisible` follows exactly the specified algorithm —
cursor 0 forces offset 0; a cursor above the window pulls the offset up to
it; otherwise `linesUsed` sums the per-item heights (1 for folded items,
`1 + newlines + 1` for unfolded ones) over `scrollOffset..cursor` inclusive
plus an above-indicator row, and on overflow the smallest larger offset that
fits is adopted by linear first-fit scan (the scan stops at the cursor, the
largest offset for which the summed range is well-formed); finally the
offset is clamped to be nonnegative.  Stated for the reachable states: a
nonnegative scroll offset and a cursor that is 0 or strictly inside the
active collection. -/
theorem claim_C1 (m : Model) (h0 : 0 ≤ m.scrollOffset)
    (h1 : m.cursor = 0 ∨ (0 < m.cursor ∧ m.cursor < (itemsLen m : Int))) :
    ensureCursorVisible m = ensureVisibleSpec m := by
  by_cases hc : m.cursor = 0
  · rw [ensure_cursor_zero m hc]
    simp only [ensureVisibleSpec]
    rw [if_pos hc]
    simp
  · obtain ⟨hpos, hlenlt⟩ := h1.resolve_left hc
    have hlen0 : ¬(itemsLen m = 0) := by omega
    simp only [ensureCursorVisible, ensureVisibleSpec, calculateContentHeight]
    rw [if_neg hc, if_neg hc, if_neg hlen0]
    by_cases h3 : m.cursor < m.scrollOffset
    · rw [if_pos h3, if_pos h3]
      have hcn : ¬(m.cursor < 0) := by omega
      simp [hcn]
    · rw [if_neg h3, if_neg h3]
      have hEq : ∀ s : Int, 0 ≤ s →
          specLinesUsed m s = codeLinesUsed m s + (if s > 0 then 1 else 0) := by
        intro s hs
        unfold specLinesUsed
        rw [codeLinesUsed_eq m s hs (le_of_lt hpos) hlenlt]
      rw [hEq m.scrollOffset h0]
      have hfind : (scanCandidates m).find?
          (fun off => decide (specLinesUsed m off ≤
            max 1 (m.height - headerApproxLines - footerApproxLines - layoutBuffer))) =
          (scanCandidates m).find?
          (fun off => decide (testLinesUsed m off ≤
            max 1 (m.height - headerApproxLines - footerApproxLines - layoutBuffer))) := by
        apply find?_congr
        intro off hoff
        have hb := mem_scanCandidates m off hoff
        rw [hEq off (by omega)]
        unfold testLinesUsed
        rw [Int.add_comm (codeLinesUsed m off)]
      rw [hfind]

theorem claim_C1_witness :
    (0 ≤ mC2.scrollOffset ∧
      (mC2.cursor = 0 ∨ (0 < mC2.cursor ∧ mC2.cursor < (itemsLen mC2 : Int)))) ∧
    ensureCursorVisible mC2 = ensureVisibleSpec mC2 :=
  ⟨⟨by decide, by decide⟩, claim_C1 mC2 (by decide) (by decide)⟩

/-- C10: `ensureCursorVisible` mutates only the `scrollOffset` field — the
cursor, view mode, viewport dimensions, help flag, pending-key state, the
document, and all three collections (including every folded flag) are
unchanged for every starting state. -/
theorem claim_C10 (m : Model) :
    (∃ o, ensureCursorVisible m = { m with scrollOffset := o }) ∧
    (ensureCursorVisible m).cursor = m.cursor ∧
    (ensureCursorVisible m).mode = m.mode ∧
    (ensureCursorVisible m).width = m.width ∧
    (ensureCursorVisible m).height = m.height ∧
    (ensureCursorVisible m).showHelp = m.showHelp ∧
    (ensureCursorVisible m).lastKey = m.lastKey ∧
    (ensureCursorVisible m).lastKeyAt = m.lastKeyAt ∧
    (ensureCursorVisible m).doc = m.doc ∧
    (ensureCursorVisible m).endpoints = m.endpoints ∧
    (ensureCursorVisible m).components = m.components ∧
    (ensureCursorVisible m).webhooks = m.webhooks := by
  obtain ⟨o, ho⟩ := ensure_scrollOffset_only m
  rw [ho]
  exact ⟨⟨o, rfl⟩, rfl, rfl, rfl, rfl, rfl, rfl, rfl, rfl, rfl, rfl, rfl⟩

theorem ensure_noscan (m : Model) (hc : ¬m.cursor = 0) (hlen0 : ¬itemsLen m = 0)
    (h3 : ¬m.cursor < m.scrollOffset) (h0 : 0 ≤ m.scrollOffset)
    (h4 : ¬(codeLinesUsed m m.scrollOffset + (if m.scrollOffset > 0 then 1 else 0) >
      calculateContentHeight m.height)) :
    ensureCursorVisible m = m := by
  simp only [ensureCursorVisible]
  rw [if_neg hc, if_neg hlen0, if_neg h3, if_neg h4]
  rw [if_neg (show ¬m.scrollOffset < 0 by omega)]

theorem ensure_scan_some (m : Model) (hc : ¬m.cursor = 0) (hlen0 : ¬itemsLen m = 0)
    (h3 : ¬m.cursor < m.scrollOffset)
    (h4 : codeLinesUsed m m.scrollOffset + (if m.scrollOffset > 0 then 1 else 0) >
      calculateContentHeight m.height)
    (off : Int)
    (hf : (scanCandidates m).find?
      (fun o => decide (testLinesUsed m o ≤ calculateContentHeight m.height)) = some off)
    (hoff : 0 ≤ off) :
    ensureCursorVisible m = { m with scrollOffset := off } := by
  simp only [ensureCursorVisible]
  rw [if_neg hc, if_neg hlen0, if_neg h3, if_pos h4, hf]
  have hno : ¬({ m with scrollOffset := off } : Model).scrollOffset < 0 := by
    simp only []
    omega
  rw [if_neg hno]

theorem ensure_scan_none (m : Model) (hc : ¬m.cursor = 0) (hlen0 : ¬itemsLen m = 0)
    (h3 : ¬m.cursor < m.scrollOffset) (h0 : 0 ≤ m.scrollOffset)
    (h4 : codeLinesUsed m m.scrollOffset + (if m.scrollOffset > 0 then 1 else 0) >
      calculateContentHeight m.height)
    (hf : (scanCandidates m).find?
      (fun o => decide (testLinesUsed m o ≤ calculateContentHeight m.height)) = none) :
    ensureCursorVisible m = m := by
  simp only [ensureCursorVisible]
  rw [if_neg hc, if_neg hlen0, if_neg h3, if_pos h4, hf]
  rw [if_neg (show ¬m.scrollOffset < 0 by omega)]

/-- C2 counterexample: content height 2, a folded item (height 1) above an
unfolded cursor item of height 2.  After `EnsureVisible` the scroll offset
stays 0, the summed heights of `[scrollOffset, cursor]` are 3 > 2, no single
item exceeds the content height, and the offset does not equal the cursor —
refuting both the bound and its claimed exception. -/
theorem claim_C2_counterexample :
    (ensureCursorVisible mC2).scrollOffset = 0 ∧
    mC2.cursor = 1 ∧ mC2.scrollOffset = 0 ∧
    calculateContentHeight mC2.height = 2 ∧
    sumHeightsIcc mC2 0 1 = 3 ∧
    (∀ h ∈ activeHeights mC2, h ≤ 2) :=
  ⟨by decide, rfl, rfl, by decide, by decide, by decide⟩

/-- C2 (amended): after `EnsureVisible` (from a reachable state: nonnegative
offset, cursor 0 or strictly inside the collection), the summed per-item
heights of `[scrollOffset, cursor]`, plus the 1-row items-above indicator
when the offset is positive, fit within the content height — except when
even the cursor item alone together with its indicator row overflows, in
which case the offset is left where the first two steps of the algorithm put
it (the old offset, or the cursor when the call scrolled up), not
necessarily at the cursor. -/
theorem claim_C2 (m : Model) (h0 : 0 ≤ m.scrollOffset)
    (h1 : m.cursor = 0 ∨ (0 < m.cursor ∧ m.cursor < (itemsLen m : Int))) :
    sumHeightsIcc m (ensureCursorVisible m).scrollOffset m.cursor
        + (if 0 < (ensureCursorVisible m).scrollOffset then 1 else 0)
      ≤ calculateContentHeight m.height
    ∨ (calculateContentHeight m.height <
        (activeHeights m)[m.cursor.toNat]?.getD 1 + (if 0 < m.cursor then 1 else 0)
      ∧ (ensureCursorVisible m).scrollOffset =
          (if m.cursor < m.scrollOffset then m.cursor else m.scrollOffset)) := by
  have hcH : 1 ≤ calculateContentHeight m.height := by
    unfold calculateContentHeight
    exact le_max_left _ _
  by_cases hc : m.cursor = 0
  · rw [ensure_cursor_zero m hc]
    dsimp only
    simp only [hc, lt_irrefl, if_neg, if_false]
    by_cases hlen : itemsLen m = 0
    · left
      have hz : sumHeightsIcc m 0 0 = 0 := by
        unfold sumHeightsIcc
        have hl0 : (activeHeights m).length = 0 := by
          rw [activeHeights_length]
          exact hlen
        have h00 : ((0 : Int) - 0 + 1).toNat = 1 := by omega
        rw [h00]
        have : (activeHeights m)[(0 : Nat)]? = none := by
          rw [List.getElem?_eq_none]
          omega
        simp [List.range', this]
      rw [hz]
      omega
    · have hlenpos : (0 : Int) < (itemsLen m : Int) := by omega
      rw [sumHeightsIcc_single m 0 (le_refl 0) hlenpos]
      by_cases hfit : (activeHeights m)[(0 : Int).toNat]?.getD 1 ≤ calculateContentHeight m.height
      · left
        simpa using hfit
      · right
        constructor
        · simpa using not_le.mp hfit
        · by_cases ho : (0 : Int) < m.scrollOffset
          · rw [if_pos ho]
          · rw [if_neg ho]
            omega
  · obtain ⟨hpos, hlenlt⟩ := h1.resolve_left hc
    have hlen0 : ¬itemsLen m = 0 := by omega
    have hcn : 0 ≤ m.cursor := le_of_lt hpos
    by_cases h3 : m.cursor < m.scrollOffset
    · have hup : ensureCursorVisible m = { m with scrollOffset := m.cursor } := by
        simp only [ensureCursorVisible]
        rw [if_neg hc, if_neg hlen0, if_pos h3]
      rw [hup]
      dsimp only
      rw [if_pos h3, sumHeightsIcc_single m m.cursor hcn hlenlt]
      by_cases hfit : (activeHeights m)[m.cursor.toNat]?.getD 1 +
          (if 0 < m.cursor then 1 else 0) ≤ calculateContentHeight m.height
      · exact Or.inl hfit
      · exact Or.inr ⟨not_le.mp hfit, rfl⟩
    · have hno : m.scrollOffset ≤ m.cursor := not_lt.mp h3
      have hcode : ∀ s : Int, 0 ≤ s → codeLinesUsed m s = sumHeightsIcc m s m.cursor :=
        fun s hs => codeLinesUsed_eq m s hs hcn hlenlt
      by_cases h4 : codeLinesUsed m m.scrollOffset + (if m.scrollOffset > 0 then 1 else 0) >
          calculateContentHeight m.height
      · cases hf : (scanCandidates m).find?
            (fun o => decide (testLinesUsed m o ≤ calculateContentHeight m.height)) with
        | some off =>
          have hmem := mem_scanCandidates m off (List.mem_of_find?_eq_some hf)
          have hoff0 : 0 ≤ off := by omega
          rw [ensure_scan_some m hc hlen0 h3 h4 off hf hoff0]
          dsimp only
          left
          have hp := List.find?_some hf
          rw [decide_eq_true_eq] at hp
          unfold testLinesUsed at hp
          rw [hcode off hoff0] at hp
          have hoffpos : (0 : Int) < off := by omega
          rw [if_pos hoffpos]
          rw [if_pos hoffpos] at hp
          omega
        | none =>
          rw [ensure_scan_none m hc hlen0 h3 h0 h4 hf]
          right
          refine ⟨?_, by rw [if_neg h3]⟩
          rw [if_pos hpos]
          by_cases heq : m.scrollOffset = m.cursor
          · rw [heq] at h4
            rw [hcode m.cursor hcn, sumHeightsIcc_single m m.cursor hcn hlenlt] at h4
            rw [if_pos hpos] at h4
            omega
          · have hlt2 : m.scrollOffset < m.cursor := lt_of_le_of_ne hno heq
            have hcm := cursor_mem_scanCandidates m hlt2
            have hnone := List.find?_eq_none.mp hf _ hcm
            simp only [decide_eq_true_eq, not_le] at hnone
            unfold testLinesUsed at hnone
            rw [hcode m.cursor hcn, sumHeightsIcc_single m m.cursor hcn hlenlt] at hnone
            rw [if_pos hpos] at hnone
            omega
      · rw [ensure_noscan m hc hlen0 h3 h0 h4]
        left
        rw [hcode m.scrollOffset h0] at h4
        by_cases ho : (0 : Int) < m.scrollOffset
        · rw [if_pos ho]
          rw [if_pos ho] at h4
          omega
        · rw [if_neg ho]
          rw [if_neg ho] at h4
          omega

theorem claim_C2_witness :
    (0 ≤ mC2.scrollOffset ∧
      (mC2.cursor = 0 ∨ (0 < mC2.cursor ∧ mC2.cursor < (itemsLen mC2 : Int)))) ∧
    (sumHeightsIcc mC2 (ensureCursorVisible mC2).scrollOffset mC2.cursor
        + (if 0 < (ensureCursorVisible mC2).scrollOffset then 1 else 0)
      ≤ calculateContentHeight mC2.height
    ∨ (calculateContentHeight mC2.height <
        (activeHeights mC2)[mC2.cursor.toNat]?.getD 1 + (if 0 < mC2.cursor then 1 else 0)
      ∧ (ensureCursorVisible mC2).scrollOffset =
          (if mC2.cursor < mC2.scrollOffset then mC2.cursor else mC2.scrollOffset))) :=
  ⟨⟨by decide, by decide⟩, claim_C2 mC2 (by decide) (by decide)⟩

/-! ### Evaluation of `update` on each key -/

theorem update_windowSize (m : Model) (w h : Int) :
    update m (.windowSize w h) = ({ m with width := w, height := h }, false) := rfl

theorem update_up (m : Model) (t : Int) :
    update m (.key "up" t) =
      (if !m.showHelp ∧ m.cursor > 0 then ensureCursorVisible { m with cursor := m.cursor - 1 }
       else m, false) := rfl

theorem update_k (m : Model) (t : Int) :
    update m (.key "k" t) =
      (if !m.showHelp ∧ m.cursor > 0 then ensureCursorVisible { m with cursor := m.cursor - 1 }
       else m, false) := rfl

theorem update_down (m : Model) (t : Int) :
    update m (.key "down" t) =
      (if !m.showHelp ∧ m.cursor < maxItems m then
        ensureCursorVisible { m with cursor := m.cursor + 1 }
       else m, false) := rfl

theorem update_j (m : Model) (t : Int) :
    update m (.key "j" t) =
      (if !m.showHelp ∧ m.cursor < maxItems m then
        ensureCursorVisible { m with cursor := m.cursor + 1 }
       else m, false) := rfl

theorem update_G (m : Model) (t : Int) :
    update m (.key "G" t) =
      (if !m.showHelp ∧ maxItems m ≥ 0 then
        ensureCursorVisible { m with cursor := maxItems m }
       else m, false) := rfl

theorem update_g (m : Model) (t : Int) :
    update m (.key "g" t) =
      (if m.lastKey = "g" ∧ t - m.lastKeyAt < keySequenceThreshold then
        ({ (if !m.showHelp then ensureCursorVisible { m with cursor := 0 } else m) with
           lastKey := "", lastKeyAt := 0 }, false)
       else ({ m with lastKey := "g", lastKeyAt := t }, false)) := rfl

theorem update_enter (m : Model) (t : Int) :
    update m (.key "enter" t) = (if !m.showHelp then toggleFold m else m, false) := rfl

theorem update_space (m : Model) (t : Int) :
    update m (.key " " t) = (if !m.showHelp then toggleFold m else m, false) := rfl

/-! ### Frame facts for the transition helpers -/

theorem toggleFold_frame (m : Model) :
    (toggleFold m).cursor = m.cursor ∧ (toggleFold m).mode = m.mode ∧
    (toggleFold m).scrollOffset = m.scrollOffset ∧ (toggleFold m).lastKey = m.lastKey ∧
    (toggleFold m).lastKeyAt = m.lastKeyAt ∧ (toggleFold m).showHelp = m.showHelp ∧
    (toggleFold m).width = m.width ∧ (toggleFold m).height = m.height := by
  unfold toggleFold
  split_ifs <;> exact ⟨rfl, rfl, rfl, rfl, rfl, rfl, rfl, rfl⟩

theorem cycleForward_keys (m : Model) :
    (cycleForward m).lastKey = m.lastKey ∧ (cycleForward m).lastKeyAt = m.lastKeyAt := by
  unfold cycleForward
  cases m.mode <;> dsimp only <;>
    first
    | (split_ifs <;> exact ⟨rfl, rfl⟩)
    | exact ⟨rfl, rfl⟩

theorem cycleBackward_keys (m : Model) :
    (cycleBackward m).lastKey = m.lastKey ∧ (cycleBackward m).lastKeyAt = m.lastKeyAt := by
  unfold cycleBackward
  cases m.mode <;> dsimp only <;>
    first
    | (split_ifs <;> exact ⟨rfl, rfl⟩)
    | exact ⟨rfl, rfl⟩

theorem ensure_keys (x : Model) :
    (ensureCursorVisible x).lastKey = x.lastKey ∧
    (ensureCursorVisible x).lastKeyAt = x.lastKeyAt := by
  obtain ⟨o, ho⟩ := ensure_scrollOffset_only x
  rw [ho]
  exact ⟨rfl, rfl⟩

/-! ### The navigation invariant (C3) -/

theorem maxItems_eq (m : Model) : maxItems m = (itemsLen m : Int) - 1 := by
  unfold maxItems itemsLen
  cases m.mode <;> rfl

theorem update_nav (m : Model) (k : String) (t : Int)
    (hk : k = "up" ∨ k = "k" ∨ k = "down" ∨ k = "j" ∨ k = "g" ∨ k = "G")
    (hInv : NavInv m) : NavInv (update m (.key k t)).1 := by
  obtain ⟨hh, hm, hc0, hclt, ho0, holec⟩ := hInv
  have hmaxle : (itemsLen m : Int) ≤ max 1 ((itemsLen m : Int)) := le_max_right _ _
  have h1max : (1 : Int) ≤ max 1 ((itemsLen m : Int)) := le_max_left _ _
  have step : ∀ c' : Int, 0 ≤ c' → c' < max 1 ((itemsLen m : Int)) →
      NavInv (ensureCursorVisible { m with cursor := c' }) := by
    intro c' hc'0 hc'lt
    have hb := ensure_bounds { m with cursor := c' } ho0 hc'0
      (by
        intro hlen
        show c' = 0
        have hlen' : itemsLen m = 0 := hlen
        have : (itemsLen m : Int) = 0 := by exact_mod_cast hlen'
        rw [this] at hc'lt
        have hmax0 : max (1 : Int) 0 = 1 := by decide
        rw [hmax0] at hc'lt
        omega)
    obtain ⟨o, ho⟩ := ensure_scrollOffset_only { m with cursor := c' }
    rw [ho] at hb ⊢
    exact ⟨hh, hm, hc'0, hc'lt, hb.1, hb.2⟩
  have upCase : NavInv (if !m.showHelp ∧ m.cursor > 0 then
      ensureCursorVisible { m with cursor := m.cursor - 1 } else m, false).1 := by
    dsimp only
    by_cases hcond : !m.showHelp ∧ m.cursor > 0
    · rw [if_pos hcond]
      exact step (m.cursor - 1) (by omega) (by omega)
    · rw [if_neg hcond]
      exact ⟨hh, hm, hc0, hclt, ho0, holec⟩
  have downCase : NavInv (if !m.showHelp ∧ m.cursor < maxItems m then
      ensureCursorVisible { m with cursor := m.cursor + 1 } else m, false).1 := by
    dsimp only
    by_cases hcond : !m.showHelp ∧ m.cursor < maxItems m
    · rw [if_pos hcond]
      have hcm := hcond.2
      rw [maxItems_eq] at hcm
      exact step (m.cursor + 1) (by omega) (by omega)
    · rw [if_neg hcond]
      exact ⟨hh, hm, hc0, hclt, ho0, holec⟩
  rcases hk with rfl | rfl | rfl | rfl | rfl | rfl
  · rw [update_up]
    exact upCase
  · rw [update_k]
    exact upCase
  · rw [update_down]
    exact downCase
  · rw [update_j]
    exact downCase
  · rw [update_g]
    by_cases hcond : m.lastKey = "g" ∧ t - m.lastKeyAt < keySequenceThreshold
    · rw [if_pos hcond]
      dsimp only
      rw [if_pos (show (!m.showHelp) = true by rw [hh]; rfl)]
      rw [ensure_cursor_zero { m with cursor := 0 } rfl]
      exact ⟨hh, hm, le_refl 0, lt_max_of_lt_left one_pos, le_refl 0, le_refl 0⟩
    · rw [if_neg hcond]
      exact ⟨hh, hm, hc0, hclt, ho0, holec⟩
  · rw [update_G]
    dsimp only
    by_cases hcond : !m.showHelp ∧ maxItems m ≥ 0
    · rw [if_pos hcond]
      have hge := hcond.2
      rw [maxItems_eq] at hge ⊢
      exact step ((itemsLen m : Int) - 1) (by omega) (by omega)
    · rw [if_neg hcond]
      exact ⟨hh, hm, hc0, hclt, ho0, holec⟩

theorem applyMsgs_nav (msgs : List Msg) : ∀ (m : Model), NavInv m →
    (∀ msg ∈ msgs, isNavMsg msg = true) → NavInv (applyMsgs m msgs) := by
  induction msgs with
  | nil => exact fun m hInv _ => hInv
  | cons msg rest ih =>
    intro m hInv h
    have h1 := h msg (List.mem_cons_self msg rest)
    cases msg with
    | windowSize w hh => simp [isNavMsg] at h1
    | key k t =>
      have hk : k = "up" ∨ k = "k" ∨ k = "down" ∨ k = "j" ∨ k = "g" ∨ k = "G" := by
        simpa [isNavMsg, navKeys] using h1
      exact ih (update m (.key k t)).1 (update_nav m k t hk hInv)
        (fun x hx => h x (List.mem_cons_of_mem _ hx))

theorem NewModel_nav (doc : OpenAPIDoc) : NavInv (NewModel doc) := by
  exact ⟨rfl, rfl, le_refl 0, lt_max_of_lt_left one_pos, le_refl 0, le_refl 0⟩

/-- C3: for every sequence of MoveUp/MoveDown/JumpTop/JumpBottom commands
(keys up/k, down/j, g for the gg sequence, G) applied to a state created by
`NewModel`, after every command `0 ≤ cursor < max 1 len(active)`, the cursor
is 0 when the active collection is empty, and `0 ≤ scrollOffset ≤ cursor`. -/
theorem claim_C3 (doc : OpenAPIDoc) (msgs : List Msg)
    (h : ∀ msg ∈ msgs, isNavMsg msg = true) :
    0 ≤ (applyMsgs (NewModel doc) msgs).cursor ∧
    (applyMsgs (NewModel doc) msgs).cursor <
      max 1 ((itemsLen (applyMsgs (NewModel doc) msgs) : Int)) ∧
    (itemsLen (applyMsgs (NewModel doc) msgs) = 0 →
      (applyMsgs (NewModel doc) msgs).cursor = 0) ∧
    0 ≤ (applyMsgs (NewModel doc) msgs).scrollOffset ∧
    (applyMsgs (NewModel doc) msgs).scrollOffset ≤ (applyMsgs (NewModel doc) msgs).cursor := by
  obtain ⟨_, _, hc0, hclt, ho0, holec⟩ := applyMsgs_nav msgs (NewModel doc) (NewModel_nav doc) h
  refine ⟨hc0, hclt, ?_, ho0, holec⟩
  intro hlen
  have : ((itemsLen (applyMsgs (NewModel doc) msgs)) : Int) = 0 := by exact_mod_cast hlen
  rw [this] at hclt
  have hmax : max (1 : Int) 0 = 1 := by decide
  rw [hmax] at hclt
  omega

theorem claim_C3_witness :
    (∀ msg ∈ msC3, isNavMsg msg = true) ∧
    (0 ≤ (applyMsgs (NewModel docGetDelete) msC3).cursor ∧
     (applyMsgs (NewModel docGetDelete) msC3).cursor <
       max 1 ((itemsLen (applyMsgs (NewModel docGetDelete) msC3) : Int)) ∧
     (itemsLen (applyMsgs (NewModel docGetDelete) msC3) = 0 →
       (applyMsgs (NewModel docGetDelete) msC3).cursor = 0) ∧
     0 ≤ (applyMsgs (NewModel docGetDelete) msC3).scrollOffset ∧
     (applyMsgs (NewModel docGetDelete) msC3).scrollOffset ≤
       (applyMsgs (NewModel docGetDelete) msC3).cursor) :=
  ⟨by decide, claim_C3 docGetDelete msC3 (by decide)⟩

/-! ### Fold / resize and EnsureVisible (C7) -/

/-- C7 counterexample: toggling the cursor item's fold with `enter` (on
`mC7`) and resizing the window down (on `mC7r`) both leave `scrollOffset`
at 0, although re-running `ensureCursorVisible` on the post-mutation state
would move it to 2 — so neither transition re-runs EnsureVisible. -/
theorem claim_C7_counterexample :
    (update mC7 (.key "enter" 0)).1.scrollOffset = 0 ∧
    (ensureCursorVisible (update mC7 (.key "enter" 0)).1).scrollOffset = 2 ∧
    (update mC7r (.windowSize 80 11)).1.scrollOffset = 0 ∧
    (ensureCursorVisible (update mC7r (.windowSize 80 11)).1).scrollOffset = 2 := by
  decide

/-- C7 (amended): neither ToggleFold (`enter`/`space`) nor Resize re-runs
EnsureVisible. `enter` and `space` leave `scrollOffset` unchanged, and a
window-size event only rewrites `width` and `height`, leaving every other
field — `scrollOffset` included — untouched. -/
theorem claim_C7 (m : Model) (t w h : Int) :
    (update m (.key "enter" t)).1.scrollOffset = m.scrollOffset ∧
    (update m (.key " " t)).1.scrollOffset = m.scrollOffset ∧
    update m (.windowSize w h) = ({ m with width := w, height := h }, false) := by
  refine ⟨?_, ?_, rfl⟩
  · rw [update_enter]
    dsimp only
    split_ifs with hs
    · exact (toggleFold_frame m).2.2.1
    · rfl
  · rw [update_space]
    dsimp only
    split_ifs with hs
    · exact (toggleFold_frame m).2.2.1
    · rfl

/-! ### The gg debounce machine (C8) -/

/-- C8 counterexample: the unrelated key `j` does NOT clear the pending
`g` prefix.  After `g` then `j` (100ms later) the prefix is still armed
(`lastKey = "g"` stamped at 0) and `j` has moved the cursor to 1, so the
final `g` of `g j g` (all within 500ms) still fires JumpTop: cursor back
to 0 with the prefix cleared. -/
theorem claim_C8_counterexample :
    (applyMsgs mC8 [.key "g" 0, .key "j" (100 * 1000000)]).lastKey = "g" ∧
    (applyMsgs mC8 [.key "g" 0, .key "j" (100 * 1000000)]).lastKeyAt = 0 ∧
    (applyMsgs mC8 [.key "g" 0, .key "j" (100 * 1000000)]).cursor = 1 ∧
    (applyMsgs mC8 msC8).cursor = 0 ∧
    (applyMsgs mC8 msC8).lastKey = "" := by
  decide

set_option maxHeartbeats 2000000 in
/-- C8 (amended): the gg machine is a debounced two-key state machine in
which only `g` itself touches the prefix.  (i) A `g` press with no armed
prefix — `lastKey ≠ "g"` or the 500ms window elapsed — records a fresh
prefix with its timestamp and changes nothing else.  (ii) A `g` press with
the prefix armed strictly within the window (help closed) fires JumpTop:
cursor 0, scrollOffset 0, and the prefix cleared so a third `g` cannot
re-trigger.  (iii) Contrary to the original claim, every non-`g` key
preserves `lastKey` and `lastKeyAt`: unrelated keys do not clear the
pending prefix. -/
theorem claim_C8 (m : Model) (t : Int) :
    (¬(m.lastKey = "g" ∧ t - m.lastKeyAt < keySequenceThreshold) →
      update m (.key "g" t) = ({ m with lastKey := "g", lastKeyAt := t }, false)) ∧
    (m.showHelp = false → m.lastKey = "g" → t - m.lastKeyAt < keySequenceThreshold →
      update m (.key "g" t) =
        ({ m with cursor := 0, scrollOffset := 0, lastKey := "", lastKeyAt := 0 }, false)) ∧
    (∀ k, k ≠ "g" →
      (update m (.key k t)).1.lastKey = m.lastKey ∧
      (update m (.key k t)).1.lastKeyAt = m.lastKeyAt) := by
  refine ⟨?_, ?_, ?_⟩
  · intro hn
    rw [update_g, if_neg hn]
  · intro hs hg ht
    rw [update_g, if_pos ⟨hg, ht⟩]
    dsimp only
    rw [if_pos (show (!m.showHelp) = true by rw [hs]; rfl)]
    rw [ensure_cursor_zero { m with cursor := 0 } rfl]
  · intro k hk
    unfold update
    dsimp only
    split_ifs <;>
      first
      | exact absurd (by assumption) hk
      | exact ensure_keys _
      | exact cycleForward_keys m
      | exact cycleBackward_keys m
      | exact ⟨(toggleFold_frame m).2.2.2.1, (toggleFold_frame m).2.2.2.2.1⟩
      | exact ⟨rfl, rfl⟩

theorem claim_C8_witness :
    (update mC8 (.key "g" 0) = ({ mC8 with lastKey := "g", lastKeyAt := 0 }, false)) ∧
    (update mC8g (.key "g" (200 * 1000000)) =
      ({ mC8g with cursor := 0, scrollOffset := 0, lastKey := "", lastKeyAt := 0 }, false)) ∧
    ((update mC8g (.key "j" (100 * 1000000))).1.lastKey = mC8g.lastKey ∧
     (update mC8g (.key "j" (100 * 1000000))).1.lastKeyAt = mC8g.lastKeyAt) :=
  ⟨(claim_C8 mC8 0).1 (by decide),
   (claim_C8 mC8g (200 * 1000000)).2.1 rfl rfl (by decide),
   (claim_C8 mC8g (100 * 1000000)).2.2 "j" (by decide)⟩

/-! ### ToggleFold is a single-field update (C9) -/

/-- C9: with help closed and an entry `e` at index `cursor` of the active
collection, `enter` rewrites the model to the same model with that one
entry replaced by `e` with its `folded` flag flipped: identity fields, the
entry's position, every other entry, the other two collections, the
cursor, and the view mode are all unchanged.  Stated for each of the three
modes. -/
theorem claim_C9 (m : Model) (t : Int) (hs : m.showHelp = false) :
    (m.mode = .endpoints → ∀ e, m.endpoints[m.cursor.toNat]? = some e →
      (update m (.key "enter" t)).1 =
        { m with endpoints :=
            m.endpoints.set m.cursor.toNat { e with folded := !e.folded } }) ∧
    (m.mode = .components → ∀ c, m.components[m.cursor.toNat]? = some c →
      (update m (.key "enter" t)).1 =
        { m with components :=
            m.components.set m.cursor.toNat { c with folded := !c.folded } }) ∧
    (m.mode = .webhooks → ∀ w, m.webhooks[m.cursor.toNat]? = some w →
      (update m (.key "enter" t)).1 =
        { m with webhooks :=
            m.webhooks.set m.cursor.toNat { w with folded := !w.folded } }) := by
  have hsb : (!m.showHelp) = true := by rw [hs]; rfl
  refine ⟨?_, ?_, ?_⟩
  · intro hmode e he
    rw [update_enter]
    dsimp only
    rw [if_pos hsb]
    unfold toggleFold
    have hlt : m.cursor.toNat < m.endpoints.length := (List.getElem?_eq_some.mp he).1
    rw [if_pos ⟨hmode, by omega⟩]
    unfold toggleFoldAt
    rw [he]
  · intro hmode c hc
    rw [update_enter]
    dsimp only
    rw [if_pos hsb]
    unfold toggleFold
    have hlt : m.cursor.toNat < m.components.length := (List.getElem?_eq_some.mp hc).1
    rw [if_neg (by simp [hmode])]
    rw [if_pos ⟨hmode, by omega⟩]
    unfold toggleFoldAt
    rw [hc]
  · intro hmode w hw
    rw [update_enter]
    dsimp only
    rw [if_pos hsb]
    unfold toggleFold
    have hlt : m.cursor.toNat < m.webhooks.length := (List.getElem?_eq_some.mp hw).1
    rw [if_neg (by simp [hmode])]
    rw [if_neg (by simp [hmode])]
    rw [if_pos ⟨hmode, by omega⟩]
    unfold toggleFoldAt
    rw [hw]

theorem claim_C9_witness :
    mC2.showHelp = false ∧
    (update mC2 (.key "enter" 0)).1 =
      { mC2 with endpoints :=
          (mC2.endpoints.set mC2.cursor.toNat
            { epUnfold "/b" with folded := !(epUnfold "/b").folded }) } :=
  ⟨rfl, (claim_C9 mC2 0 rfl).1 rfl (epUnfold "/b") rfl⟩

end Oq
